import Mathlib

/-!
# excel2jason: sheet rows to JSON records and back

A shallow embedding of `src/main.go` (the functions `checkWritePermission`,
`excelToJSON`, `jsonToExcel` and the file-open callback of the export button).

* A Go `map[string]string` is a `Finmap`: a finite map without any order on its
  keys.  The order in which `for key := range m` visits the keys is not fixed by
  Go, so it is an input of the model (`Env.rangeKeys`), constrained by
  `RangeOrder` to visit every key exactly once.
* The operating system, the JSON codec and the spreadsheet library are an
  environment `Env` that fixes the outcome of every call.  A run returns the
  calls it made, in order, together with the Go `error` it returned
  (`none` is `nil`).
* A `SetCellValue` call is recorded with the column number handed to
  `ColumnNumberToName` and the row number formatted into the reference.  The source
  discards the errors of `ColumnNumberToName` and of `SetCellValue`, so a recorded
  call need not change the document: `cellAt` speaks of the calls made, `held` of
  what the document holds under the limits and the text handling of the
  spreadsheet library (`Excelize`).
-/

namespace Excel2Json

/-! ## Data model -/

/-- Go `map[string]string`. -/
abbrev GoMap := Finmap (fun _ : String => String)

/-- Go `m[k]` on a `map[string]string`: the value, or the zero value `""` when the key is absent. -/
def index (m : GoMap) (k : String) : String :=
  (m.lookup k).getD ""

/-- Go `len(m)`. -/
def GoMap.len (m : GoMap) : Nat :=
  m.keys.card

/-- The orders in which `for key := range m` may visit the keys of `m`:
every key once, in any order. -/
def RangeOrder (m : GoMap) (hs : List String) : Prop :=
  hs.Nodup ∧ hs.toFinset = m.keys

instance (m : GoMap) (hs : List String) : Decidable (RangeOrder m hs) := by
  unfold RangeOrder; infer_instance

/-- One call `f.SetCellValue(sheet, fmt.Sprintf("%s%d", colName, row), value)` with
`colName, _ := excelize.ColumnNumberToName(col)`: `col` is the number handed to
`ColumnNumberToName` and `row` the number formatted into the reference. -/
structure CellWrite where
  sheet : String
  col : Nat
  row : Nat
  value : String
deriving DecidableEq, Repr

/-- The error values built by the `fmt.Errorf` calls of `main.go`, one constructor per call site;
`cause` is the wrapped error text. -/
inductive ConvError where
  | createFailed (cause : String)
  | removeFailed (cause : String)
  | openFailed (cause : String)
  | noSheet
  | rowsFailed (cause : String)
  | noData (sheetName : String)
  | marshalFailed (cause : String)
  | writeFailed (cause : String)
  | readFailed (cause : String)
  | parseFailed (cause : String)
  | saveFailed (cause : String)
deriving DecidableEq

/-- The text of each error, as formatted by `fmt.Errorf`. -/
def ConvError.message : ConvError → String
  | .createFailed e => "没有写入权限，无法创建文件: " ++ e
  | .removeFailed e => "无法删除测试文件，权限问题: " ++ e
  | .openFailed e => "打开 Excel 文件失败: " ++ e
  | .noSheet => "Excel 文件中没有有效的工作表"
  | .rowsFailed e => "读取行数据失败: " ++ e
  | .noData s => "工作表 \x27" ++ s ++ "\x27 中没有有效的数据"
  | .marshalFailed e => "JSON 编码失败: " ++ e
  | .writeFailed e => "保存 JSON 文件失败: " ++ e
  | .readFailed e => "读取 JSON 文件失败: " ++ e
  | .parseFailed e => "解析 JSON 数据失败: " ++ e
  | .saveFailed e => "保存 Excel 文件失败: " ++ e

/-- A workbook as `excelize` presents it: `GetSheetList` and `GetRows`. -/
structure Workbook where
  sheetList : List String
  getRows : String → Except String (List (List String))

/-- The calls a run makes to the operating system, the codecs and the dialogs. -/
inductive Call where
  | osCreate (name : String)
  | fileClose (name : String)
  | osRemove (name : String)
  | openFile (path : String)
  | getRows (sheet : String)
  | marshalIndent (data : List GoMap)
  | osWriteFile (name : String) (content : String)
  | closeBook
  | osReadFile (name : String)
  | unmarshal (content : String)
  | newFile
  | setCellValue (w : CellWrite)
  | saveAs (path : String)
  | showError (msg : String)
  | showInformation (title : String) (msg : String)
  | setText (text : String)
  | showSaveDialog

/-- The outcome of every external call.  An `Option String` result is a Go `error`
(`none` is `nil`); an `Except String` result is a Go `(value, error)` pair. -/
structure Env where
  create : String → Option String
  remove : String → Option String
  openFile : String → Except String Workbook
  marshalIndent : List GoMap → Except String String
  writeFile : String → String → Option String
  readFile : String → Except String String
  unmarshal : String → Except String (List GoMap)
  rangeKeys : GoMap → List String
  saveAs : String → Option String

/-- A finished run: the calls made, in order, and the returned Go `error`. -/
structure Run where
  calls : List Call
  err : Option ConvError

/-! ## `checkWritePermission` (main.go 115-127) -/

/-- Embedding of `checkWritePermission`. -/
def checkWritePermission (env : Env) (path : String) : Run :=
  let testFile := path ++ ".permission_test"
  match env.create testFile with
  | some e => ⟨[.osCreate testFile], some (.createFailed e)⟩
  | none =>
    match env.remove testFile with
    | some e => ⟨[.osCreate testFile, .fileClose testFile, .osRemove testFile], some (.removeFailed e)⟩
    | none => ⟨[.osCreate testFile, .fileClose testFile, .osRemove testFile], none⟩

/-! ## `excelToJSON` (main.go 130-180) -/

/-- The inner loop `for i, cell := range row` (main.go 162-166), started at index `i`
with the map `rowData`. -/
def fillRow (headers : List String) (rowData : GoMap) (i : Nat) : List String → GoMap
  | [] => rowData
  | cell :: rest =>
    if h : i < headers.length then
      fillRow headers (rowData.insert headers[i] cell) (i + 1) rest
    else
      fillRow headers rowData (i + 1) rest

/-- The record of one data row: `rowData := make(map[string]string)` followed by the inner loop. -/
def rowRecord (headers : List String) (row : List String) : GoMap :=
  fillRow headers ∅ 0 row

/-- The outer loop `for _, row := range rows[1:]` (main.go 160-168), with `data` the slice
built so far. -/
def appendRecords (headers : List String) (data : List GoMap) : List (List String) → List GoMap
  | [] => data
  | row :: rest => appendRecords headers (data ++ [rowRecord headers row]) rest

/-- Lines 158-168: `headers := rows[0]`, then one record per row of `rows[1:]`. -/
def buildRecords (rows : List (List String)) : List GoMap :=
  match rows with
  | [] => []
  | headers :: rest => appendRecords headers [] rest

/-- The part of `excelToJSON` that runs once the workbook is open (main.go 142-179);
the deferred `f.Close()` is added by the caller. -/
def convertBook (env : Env) (f : Workbook) (outputPath : String) : Run :=
  match f.sheetList with
  | [] => ⟨[], some .noSheet⟩
  | sheetName :: _ =>
    match f.getRows sheetName with
    | .error e => ⟨[.getRows sheetName], some (.rowsFailed e)⟩
    | .ok rows =>
      if rows.length < 2 then
        ⟨[.getRows sheetName], some (.noData sheetName)⟩
      else
        let data := buildRecords rows
        match env.marshalIndent data with
        | .error e => ⟨[.getRows sheetName, .marshalIndent data], some (.marshalFailed e)⟩
        | .ok jsonData =>
          match env.writeFile outputPath jsonData with
          | some e =>
            ⟨[.getRows sheetName, .marshalIndent data, .osWriteFile outputPath jsonData],
              some (.writeFailed e)⟩
          | none =>
            ⟨[.getRows sheetName, .marshalIndent data, .osWriteFile outputPath jsonData], none⟩

/-- Embedding of `excelToJSON`. -/
def excelToJSON (env : Env) (inputPath outputPath : String) : Run :=
  let probe := checkWritePermission env outputPath
  match probe.err with
  | some e => ⟨probe.calls, some e⟩
  | none =>
    match env.openFile inputPath with
    | .error e => ⟨probe.calls ++ [.openFile inputPath], some (.openFailed e)⟩
    | .ok f =>
      let r := convertBook env f outputPath
      ⟨probe.calls ++ [.openFile inputPath] ++ r.calls ++ [.closeBook], r.err⟩

/-! ## `jsonToExcel` (main.go 183-225) -/

/-- The loop `for i, header := range headers` writing row 1 (main.go 206-209), started at
index `i` on the document `f` (the cell writes made so far). -/
def writeHeaderRow (f : List CellWrite) (i : Nat) : List String → List CellWrite
  | [] => f
  | header :: rest => writeHeaderRow (f ++ [⟨"Sheet1", i + 1, 1, header⟩]) (i + 1) rest

/-- The inner loop `for colIdx, header := range headers` of one record (main.go 213-216). -/
def writeDataRow (f : List CellWrite) (rowIdx : Nat) (row : GoMap) (colIdx : Nat) :
    List String → List CellWrite
  | [] => f
  | header :: rest =>
    writeDataRow (f ++ [⟨"Sheet1", colIdx + 1, rowIdx + 2, index row header⟩]) rowIdx row
      (colIdx + 1) rest

/-- The outer loop `for rowIdx, row := range data` (main.go 212-217). -/
def writeDataRows (f : List CellWrite) (headers : List String) (rowIdx : Nat) :
    List GoMap → List CellWrite
  | [] => f
  | row :: rest => writeDataRows (writeDataRow f rowIdx row 0 headers) headers (rowIdx + 1) rest

/-- Lines 198-218: every `SetCellValue` call made on the new document, in order.
`rangeKeys` gives the order in which `range data[0]` visits the keys. -/
def fillSheet (rangeKeys : GoMap → List String) (data : List GoMap) : List CellWrite :=
  match data with
  | [] => []
  | first :: _ =>
    let headers := rangeKeys first
    writeDataRows (writeHeaderRow [] 0 headers) headers 0 data

/-- The value handed to `SetCellValue` by the last call made for column number `col` and row
`row`, or `none` when no call was made for them.  Whether the library accepts the call, and
what the cell then holds, is `held`. -/
def cellAt : List CellWrite → Nat → Nat → Option String
  | [], _, _ => none
  | w :: rest, col, row =>
    match cellAt rest col row with
    | some v => some v
    | none => if w.col = col ∧ w.row = row then some w.value else none

/-- What the spreadsheet library does with the `SetCellValue` calls, whose errors the source
discards: `sheet` is the one sheet of a new document, a column number above `maxColumns`
(`ColumnNumberToName` fails) or a row above `totalRows` is refused, and a cell set to the text
`s` reads back as `stored s`. -/
structure Excelize where
  sheet : String
  maxColumns : Nat
  totalRows : Nat
  stored : String → String

/-- The calls that change the document: those on the sheet of the new document, with a column
in `1..maxColumns` and a row in `1..totalRows`. -/
def Excelize.Accepts (lib : Excelize) (w : CellWrite) : Prop :=
  w.sheet = lib.sheet ∧ 1 ≤ w.col ∧ w.col ≤ lib.maxColumns ∧ 1 ≤ w.row ∧ w.row ≤ lib.totalRows

instance (lib : Excelize) (w : CellWrite) : Decidable (lib.Accepts w) := by
  unfold Excelize.Accepts; infer_instance

/-- The text the cell `(col, row)` of the document holds after the calls `f`: the stored form
of the value of the last accepted call for it, or `none` when no accepted call set it. -/
def held (lib : Excelize) : List CellWrite → Nat → Nat → Option String
  | [], _, _ => none
  | w :: rest, col, row =>
    match held lib rest col row with
    | some v => some v
    | none => if lib.Accepts w ∧ w.col = col ∧ w.row = row then some (lib.stored w.value) else none

/-- Embedding of `jsonToExcel`. -/
def jsonToExcel (env : Env) (inputPath outputPath : String) : Run :=
  match env.readFile inputPath with
  | .error e => ⟨[.osReadFile inputPath], some (.readFailed e)⟩
  | .ok jsonData =>
    match env.unmarshal jsonData with
    | .error e => ⟨[.osReadFile inputPath, .unmarshal jsonData], some (.parseFailed e)⟩
    | .ok data =>
      let cells := fillSheet env.rangeKeys data
      let calls := [Call.osReadFile inputPath, .unmarshal jsonData, .newFile]
        ++ cells.map Call.setCellValue ++ [.saveAs outputPath, .closeBook]
      match env.saveAs outputPath with
      | some e => ⟨calls, some (.saveFailed e)⟩
      | none => ⟨calls, none⟩

/-- The cell writes among the calls of a run, in order. -/
def cellWrites : List Call → List CellWrite
  | [] => []
  | .setCellValue w :: rest => w :: cellWrites rest
  | _ :: rest => cellWrites rest

/-! ## The export button (main.go 63-102) -/

/-- `os.IsPathSeparator` on a Unix build. -/
def isPathSeparator (c : Char) : Bool :=
  c = '/'

/-- The scan of `filepath.Ext` from the last character backwards: `acc` is the suffix
already passed. -/
def extScan : List Char → List Char → List Char
  | [], _ => []
  | c :: rest, acc =>
    if isPathSeparator c then []
    else if c = '.' then '.' :: acc
    else extScan rest (c :: acc)

/-- Go `filepath.Ext`: the suffix starting at the last dot of the last path element,
or `""` when there is none. -/
def Ext (path : String) : String :=
  String.mk (extScan path.data.reverse [])

/-- The callback of the save dialog (main.go 76-94): `writer` is the chosen path, `none` when
the dialog reported an error or was dismissed. -/
def exportSaveCallback (env : Env) (inputPath : String) (writer : Option String) : List Call :=
  match writer with
  | none => []
  | some path =>
    let outputPath := if Ext path ≠ ".xlsx" then path ++ ".xlsx" else path
    let r := jsonToExcel env inputPath outputPath
    match r.err with
    | some e => [.setText ("导出路径：" ++ outputPath)] ++ r.calls ++ [.showError e.message]
    | none =>
      [.setText ("导出路径：" ++ outputPath)] ++ r.calls
        ++ [.showInformation "成功" ("JSON 转 Excel 成功！保存至：" ++ outputPath)]

/-- The callback of the file-open dialog of the export button (main.go 64-98): `reader` is the
chosen input path (`none` on error or dismissal), `writer` what the save dialog will hand to
its callback. -/
def exportOpenCallback (env : Env) (reader : Option String) (writer : Option String) :
    List Call :=
  match reader with
  | none => []
  | some inputPath =>
    if Ext inputPath ≠ ".json" then
      [.showError "请选择有效的 JSON 文件"]
    else
      [.setText ("输入路径：" ++ inputPath), .showSaveDialog]
        ++ exportSaveCallback env inputPath writer

/-! ## Auxiliary definitions used to state the results -/

/-- The value paired with the last occurrence of the key `k` in a list of pairs. -/
def lastValue : List (String × String) → String → Option String
  | [], _ => none
  | (a, b) :: ps, k =>
    match lastValue ps k with
    | some v => some v
    | none => if a = k then some b else none

/-- The arguments of the `json.MarshalIndent` calls among the calls of a run, in order. -/
def serialized : List Call → List (List GoMap)
  | [] => []
  | .marshalIndent data :: rest => data :: serialized rest
  | _ :: rest => serialized rest

/-- The files written by `os.WriteFile` among the calls of a run, in order. -/
def filesWritten : List Call → List (String × String)
  | [] => []
  | .osWriteFile name content :: rest => (name, content) :: filesWritten rest
  | _ :: rest => filesWritten rest

/-- The paths read by `os.ReadFile` among the calls of a run, in order. -/
def filesRead : List Call → List String
  | [] => []
  | .osReadFile name :: rest => name :: filesRead rest
  | _ :: rest => filesRead rest

/-- The workbooks opened by `excelize.OpenFile` among the calls of a run, in order. -/
def booksOpened : List Call → List String
  | [] => []
  | .openFile path :: rest => path :: booksOpened rest
  | _ :: rest => booksOpened rest

/-! ## A sample environment -/

/-- A sheet with a full row, a short row and a long row. -/
def sampleRows : List (List String) :=
  [["name", "age"], ["Ann", "31"], ["Bob"], ["Cy", "40", "x"]]

/-- An environment in which every call succeeds: the workbook at any path has the one sheet
`Sheet1` holding `rows`, the JSON file decodes to the records of `rows`, and `range` visits
the keys in the order `order`. -/
def sheetEnv (rows : List (List String)) (order : List String) : Env :=
  Env.mk (fun _ => none) (fun _ => none) (fun _ => .ok ⟨["Sheet1"], fun _ => .ok rows⟩)
    (fun _ => .ok "[]") (fun _ _ => none) (fun _ => .ok "[]")
    (fun _ => .ok (buildRecords rows)) (fun _ => order) (fun _ => none)

/-- A workbook whose only sheet holds `sampleRows`. -/
def sampleBook : Workbook :=
  ⟨["Sheet1"], fun _ => .ok sampleRows⟩

/-- The environment of `sampleRows`, in which `range` visits `age` before `name`. -/
def sampleEnv : Env :=
  sheetEnv sampleRows ["age", "name"]

/-- An environment in which every call succeeds, the JSON file decodes to `data`, and `range`
visits the keys in the order `order`. -/
def recordsEnv (data : List GoMap) (order : List String) : Env :=
  Env.mk (fun _ => none) (fun _ => none) (fun _ => .ok sampleBook) (fun _ => .ok "[]")
    (fun _ _ => none) (fun _ => .ok "[]") (fun _ => .ok data) (fun _ => order) (fun _ => none)

/-- The library with the sheet limits of the xlsx format (16384 columns, 1048576 rows) and the
new document sheet `Sheet1`.  Of its text handling the part the examples exercise is kept: a
text is cut after 32767 characters and the escape `_x0041_` reads back as `A`. -/
def sampleLib : Excelize :=
  ⟨"Sheet1", 16384, 1048576,
    fun s => if s = "_x0041_" then "A" else String.mk (s.data.take 32767)⟩

/-- An environment in which the probe passes and writing the output file fails. -/
def unwritableEnv : Env :=
  Env.mk (fun _ => none) (fun _ => none) (fun _ => .ok sampleBook) (fun _ => .ok "[]")
    (fun _ _ => some "is a directory") (fun _ => .ok "[]")
    (fun _ => .ok (buildRecords sampleRows)) (fun _ => ["age", "name"]) (fun _ => none)

/-- An environment in which creating a file is refused. -/
def deniedEnv : Env :=
  Env.mk (fun _ => some "permission denied") (fun _ => none) (fun _ => .ok sampleBook)
    (fun _ => .ok "[]") (fun _ _ => none) (fun _ => .ok "[]")
    (fun _ => .ok (buildRecords sampleRows)) (fun _ => ["age", "name"]) (fun _ => none)

/-! ## Small checks of the embedding -/

example : Ext "/home/u/data.json" = ".json" := by decide
example : Ext "/home/u.d/data" = "" := by decide
example : Ext "a.tar.gz" = ".gz" := by decide
example : index (rowRecord ["a", "b"] ["1", "2", "3"]) "b" = "2" := by decide
example : (rowRecord ["a", "a"] ["1", "2"]).lookup "a" = some "2" := by decide
example : (buildRecords [["a", "b"], ["1"], ["2", "3"]]).length = 2 := by decide
example : cellAt (fillSheet (fun _ => ["a"]) [rowRecord ["a"] ["7"]]) 1 2 = some "7" := by decide
example : held sampleLib (fillSheet (fun _ => ["a"]) [rowRecord ["a"] ["7"]]) 1 2 = some "7" := by
  decide
example : held sampleLib [⟨"Sheet1", 16385, 1, "x"⟩, ⟨"Sheet1", 1, 1048577, "y"⟩] 16385 1 = none := by
  decide

/-! ## Records built from a row -/

theorem lastValue_eq_none_iff (ps : List (String × String)) (k : String) :
    lastValue ps k = none ↔ ∀ p ∈ ps, p.1 ≠ k := by
  induction ps with
  | nil => simp [lastValue]
  | cons p ps ih =>
    obtain ⟨a, b⟩ := p
    cases hl : lastValue ps k with
    | some v =>
      have hne : ¬ ∀ p ∈ ps, p.1 ≠ k := fun h => by
        rw [ih.mpr h] at hl; cases hl
      simp only [lastValue, hl, List.mem_cons, forall_eq_or_imp]
      constructor
      · intro h; cases h
      · intro h; exact absurd h.2 hne
    | none =>
      have hall := ih.mp hl
      by_cases hak : a = k
      · simp [lastValue, hl, hak]
      · simp only [lastValue, hl, hak, if_false, List.mem_cons, forall_eq_or_imp, true_iff]
        exact ⟨hak, hall⟩

theorem lastValue_of_last (ps : List (String × String)) (j : Nat) (k v : String)
    (hj : ps[j]? = some (k, v))
    (hlast : ∀ j2 p, j < j2 → ps[j2]? = some p → p.1 ≠ k) :
    lastValue ps k = some v := by
  induction ps generalizing j with
  | nil => simp at hj
  | cons p ps ih =>
    obtain ⟨a, b⟩ := p
    cases j with
    | zero =>
      simp only [List.getElem?_cons_zero, Option.some.injEq, Prod.mk.injEq] at hj
      have hnone : lastValue ps k = none := by
        rw [lastValue_eq_none_iff]
        intro p hp
        obtain ⟨n, hn⟩ := List.mem_iff_getElem?.mp hp
        exact hlast (n + 1) p (Nat.succ_pos n) (by simpa using hn)
      simp [lastValue, hnone, hj.1, hj.2]
    | succ j =>
      have h1 : lastValue ps k = some v := by
        apply ih j (by simpa using hj)
        intro j2 p hlt hp
        exact hlast (j2 + 1) p (Nat.succ_lt_succ hlt) (by simpa using hp)
      simp [lastValue, h1]

theorem lastValue_mem (ps : List (String × String)) (k v : String)
    (h : lastValue ps k = some v) : (k, v) ∈ ps := by
  induction ps with
  | nil => simp [lastValue] at h
  | cons p ps ih =>
    obtain ⟨a, b⟩ := p
    cases hl : lastValue ps k with
    | some w =>
      simp only [lastValue, hl, Option.some.injEq] at h
      subst h
      exact List.mem_cons_of_mem _ (ih hl)
    | none =>
      by_cases hak : a = k
      · simp only [lastValue, hl, hak, if_true, Option.some.injEq] at h
        subst h; subst hak
        exact List.mem_cons_self _ _
      · simp [lastValue, hl, hak] at h

theorem lookup_fillRow (headers : List String) (m : GoMap) (i : Nat) (cells : List String)
    (k : String) :
    (fillRow headers m i cells).lookup k
      = (lastValue ((headers.drop i).zip cells) k).or (m.lookup k) := by
  induction cells generalizing m i with
  | nil => simp [fillRow, lastValue]
  | cons cell rest ih =>
    by_cases h : i < headers.length
    · rw [fillRow, dif_pos h, ih, List.drop_eq_getElem_cons h, List.zip_cons_cons]
      cases hl : lastValue ((List.drop (i + 1) headers).zip rest) k with
      | some v => simp [lastValue, hl]
      | none =>
        by_cases hk : headers[i] = k
        · subst hk
          simp [lastValue, hl, Finmap.lookup_insert]
        · have hk2 : k ≠ headers[i] := fun e => hk e.symm
          simp [lastValue, hl, hk, Finmap.lookup_insert_of_ne _ hk2]
    · have h1 : List.drop i headers = [] := List.drop_eq_nil_of_le (Nat.le_of_not_lt h)
      have h2 : List.drop (i + 1) headers = [] := List.drop_eq_nil_of_le (by omega)
      rw [fillRow, dif_neg h, ih, h1, h2]
      simp

theorem lookup_rowRecord (headers row : List String) (k : String) :
    (rowRecord headers row).lookup k = lastValue (headers.zip row) k := by
  rw [rowRecord, lookup_fillRow]
  simp [Finmap.lookup_empty]

theorem mem_rowRecord_iff (headers row : List String) (k : String) :
    k ∈ rowRecord headers row ↔ ∃ (j : Nat) (c : String), headers[j]? = some k ∧ row[j]? = some c := by
  rw [← Finmap.lookup_isSome, lookup_rowRecord]
  constructor
  · intro h
    obtain ⟨v, hv⟩ := Option.isSome_iff_exists.mp h
    obtain ⟨n, hn⟩ := List.mem_iff_getElem?.mp (lastValue_mem _ _ _ hv)
    rw [List.getElem?_zip_eq_some] at hn
    exact ⟨n, v, hn.1, hn.2⟩
  · rintro ⟨j, c, hj, hc⟩
    cases hl : lastValue (headers.zip row) k with
    | some v => rfl
    | none =>
      rw [lastValue_eq_none_iff] at hl
      have hmem : (k, c) ∈ headers.zip row :=
        List.mem_iff_getElem?.mpr ⟨j, List.getElem?_zip_eq_some.mpr ⟨hj, hc⟩⟩
      exact absurd rfl (hl _ hmem)

theorem lookup_rowRecord_of_last (headers row : List String) (j : Nat) (k c : String)
    (hj : headers[j]? = some k) (hc : row[j]? = some c)
    (hlast : ∀ j2, j < j2 → j2 < row.length → headers[j2]? ≠ some k) :
    (rowRecord headers row).lookup k = some c := by
  rw [lookup_rowRecord]
  apply lastValue_of_last _ j k c (List.getElem?_zip_eq_some.mpr ⟨hj, hc⟩)
  intro j2 p hlt hp hpk
  rw [List.getElem?_zip_eq_some] at hp
  have hlen : j2 < row.length := (List.getElem?_eq_some.mp hp.2).1
  exact hlast j2 hlt hlen (by rw [hp.1, hpk])

theorem lookup_rowRecord_of_nodup (headers row : List String) (hd : headers.Nodup) (j : Nat)
    (k c : String) (hj : headers[j]? = some k) (hc : row[j]? = some c) :
    (rowRecord headers row).lookup k = some c := by
  apply lookup_rowRecord_of_last headers row j k c hj hc
  intro j2 hlt _ h2
  obtain ⟨h1, e1⟩ := List.getElem?_eq_some.mp hj
  obtain ⟨h3, e3⟩ := List.getElem?_eq_some.mp h2
  have := (List.Nodup.getElem_inj_iff hd).mp (e1.trans e3.symm)
  omega

theorem appendRecords_eq (headers : List String) (data : List GoMap) (rest : List (List String)) :
    appendRecords headers data rest = data ++ rest.map (rowRecord headers) := by
  induction rest generalizing data with
  | nil => simp [appendRecords]
  | cons row rest ih => simp [appendRecords, ih]

theorem buildRecords_cons (headers : List String) (rest : List (List String)) :
    buildRecords (headers :: rest) = rest.map (rowRecord headers) := by
  simp [buildRecords, appendRecords_eq]

theorem zip_take_length (l1 l2 : List String) :
    l1.zip (l2.take l1.length) = l1.zip l2 := by
  induction l1 generalizing l2 with
  | nil => simp
  | cons a l1 ih =>
    cases l2 with
    | nil => simp
    | cons b l2 => simp [ih]

theorem rowRecord_take (headers row : List String) :
    rowRecord headers (row.take headers.length) = rowRecord headers row := by
  apply Finmap.ext_lookup
  intro k
  rw [lookup_rowRecord, lookup_rowRecord, zip_take_length]

/-! ## The run of `excelToJSON` -/

theorem checkWritePermission_ok (env : Env) (path : String)
    (hc : env.create (path ++ ".permission_test") = none)
    (hr : env.remove (path ++ ".permission_test") = none) :
    checkWritePermission env path
      = ⟨[.osCreate (path ++ ".permission_test"), .fileClose (path ++ ".permission_test"),
          .osRemove (path ++ ".permission_test")], none⟩ := by
  simp [checkWritePermission, hc, hr]

theorem excelToJSON_serialized (env : Env) (inputPath outputPath : String) (f : Workbook)
    (sheetName : String) (others : List String) (rows : List (List String))
    (hc : env.create (outputPath ++ ".permission_test") = none)
    (hr : env.remove (outputPath ++ ".permission_test") = none)
    (ho : env.openFile inputPath = .ok f)
    (hs : f.sheetList = sheetName :: others)
    (hg : f.getRows sheetName = .ok rows)
    (hn : 2 ≤ rows.length) :
    serialized (excelToJSON env inputPath outputPath).calls = [buildRecords rows] := by
  have hlt : ¬ rows.length < 2 := by omega
  simp only [excelToJSON, checkWritePermission_ok env outputPath hc hr, ho, convertBook, hs, hg,
    hlt, if_false]
  cases hm : env.marshalIndent (buildRecords rows) with
  | error e => simp [serialized]
  | ok jsonData =>
    cases hw : env.writeFile outputPath jsonData with
    | none => simp [hw, serialized]
    | some e => simp [hw, serialized]

/-! ## The cells written by `jsonToExcel` -/

theorem mem_writeHeaderRow (f : List CellWrite) (i : Nat) (hs : List String) (w : CellWrite) :
    w ∈ writeHeaderRow f i hs
      ↔ w ∈ f ∨ ∃ (j : Nat) (h : String), hs[j]? = some h ∧ w = ⟨"Sheet1", i + j + 1, 1, h⟩ := by
  induction hs generalizing f i with
  | nil => simp [writeHeaderRow]
  | cons header rest ih =>
    rw [writeHeaderRow, ih]
    constructor
    · rintro (hw | ⟨j, h, hj, rfl⟩)
      · rcases List.mem_append.mp hw with hw | hw
        · exact Or.inl hw
        · refine Or.inr ⟨0, header, by simp, ?_⟩
          simpa using hw
      · exact Or.inr ⟨j + 1, h, by simpa using hj, by
          have : i + 1 + j + 1 = i + (j + 1) + 1 := by omega
          rw [this]⟩
    · rintro (hw | ⟨j, h, hj, rfl⟩)
      · exact Or.inl (List.mem_append.mpr (Or.inl hw))
      · cases j with
        | zero =>
          simp only [List.getElem?_cons_zero, Option.some.injEq] at hj
          subst hj
          exact Or.inl (by simp)
        | succ j =>
          refine Or.inr ⟨j, h, by simpa using hj, ?_⟩
          have : i + (j + 1) + 1 = i + 1 + j + 1 := by omega
          rw [this]

theorem mem_writeDataRow (f : List CellWrite) (rowIdx : Nat) (row : GoMap) (colIdx : Nat)
    (hs : List String) (w : CellWrite) :
    w ∈ writeDataRow f rowIdx row colIdx hs
      ↔ w ∈ f ∨ ∃ (j : Nat) (h : String), hs[j]? = some h
          ∧ w = ⟨"Sheet1", colIdx + j + 1, rowIdx + 2, index row h⟩ := by
  induction hs generalizing f colIdx with
  | nil => simp [writeDataRow]
  | cons header rest ih =>
    rw [writeDataRow, ih]
    constructor
    · rintro (hw | ⟨j, h, hj, rfl⟩)
      · rcases List.mem_append.mp hw with hw | hw
        · exact Or.inl hw
        · refine Or.inr ⟨0, header, by simp, ?_⟩
          simpa using hw
      · exact Or.inr ⟨j + 1, h, by simpa using hj, by
          have : colIdx + 1 + j + 1 = colIdx + (j + 1) + 1 := by omega
          rw [this]⟩
    · rintro (hw | ⟨j, h, hj, rfl⟩)
      · exact Or.inl (List.mem_append.mpr (Or.inl hw))
      · cases j with
        | zero =>
          simp only [List.getElem?_cons_zero, Option.some.injEq] at hj
          subst hj
          exact Or.inl (by simp)
        | succ j =>
          refine Or.inr ⟨j, h, by simpa using hj, ?_⟩
          have : colIdx + (j + 1) + 1 = colIdx + 1 + j + 1 := by omega
          rw [this]

theorem mem_writeDataRows (f : List CellWrite) (hs : List String) (rowIdx : Nat)
    (data : List GoMap) (w : CellWrite) :
    w ∈ writeDataRows f hs rowIdx data
      ↔ w ∈ f ∨ ∃ (i : Nat) (r : GoMap) (j : Nat) (h : String), data[i]? = some r
          ∧ hs[j]? = some h ∧ w = ⟨"Sheet1", j + 1, rowIdx + i + 2, index r h⟩ := by
  induction data generalizing f rowIdx with
  | nil => simp [writeDataRows]
  | cons row rest ih =>
    rw [writeDataRows, ih, mem_writeDataRow]
    constructor
    · rintro ((hw | ⟨j, h, hj, rfl⟩) | ⟨i, r, j, h, hi, hj, rfl⟩)
      · exact Or.inl hw
      · exact Or.inr ⟨0, row, j, h, by simp, hj, by simp⟩
      · exact Or.inr ⟨i + 1, r, j, h, by simpa using hi, hj, by
          have : rowIdx + 1 + i + 2 = rowIdx + (i + 1) + 2 := by omega
          rw [this]⟩
    · rintro (hw | ⟨i, r, j, h, hi, hj, rfl⟩)
      · exact Or.inl (Or.inl hw)
      · cases i with
        | zero =>
          simp only [List.getElem?_cons_zero, Option.some.injEq] at hi
          subst hi
          exact Or.inl (Or.inr ⟨j, h, hj, by simp⟩)
        | succ i =>
          refine Or.inr ⟨i, r, j, h, by simpa using hi, hj, ?_⟩
          have : rowIdx + (i + 1) + 2 = rowIdx + 1 + i + 2 := by omega
          rw [this]

theorem mem_fillSheet (rangeKeys : GoMap → List String) (first : GoMap) (rest : List GoMap)
    (w : CellWrite) :
    w ∈ fillSheet rangeKeys (first :: rest)
      ↔ (∃ (j : Nat) (h : String), (rangeKeys first)[j]? = some h ∧ w = ⟨"Sheet1", j + 1, 1, h⟩)
        ∨ ∃ (i : Nat) (r : GoMap) (j : Nat) (h : String), (first :: rest)[i]? = some r
          ∧ (rangeKeys first)[j]? = some h ∧ w = ⟨"Sheet1", j + 1, i + 2, index r h⟩ := by
  simp only [fillSheet, mem_writeDataRows, mem_writeHeaderRow, List.not_mem_nil, false_or,
    Nat.zero_add]

theorem cellAt_eq_none (f : List CellWrite) (col row : Nat)
    (h : ∀ w ∈ f, ¬ (w.col = col ∧ w.row = row)) : cellAt f col row = none := by
  induction f with
  | nil => rfl
  | cons w rest ih =>
    have h1 := ih (fun w2 hw2 => h w2 (List.mem_cons_of_mem _ hw2))
    have h2 := h w (List.mem_cons_self _ _)
    simp [cellAt, h1, h2]

theorem cellAt_eq_some (f : List CellWrite) (col row : Nat) (v : String)
    (hex : ∃ w ∈ f, w.col = col ∧ w.row = row)
    (hval : ∀ w ∈ f, w.col = col → w.row = row → w.value = v) :
    cellAt f col row = some v := by
  induction f with
  | nil => obtain ⟨w, hw, _⟩ := hex; cases hw
  | cons w rest ih =>
    by_cases hrest : ∃ w2 ∈ rest, w2.col = col ∧ w2.row = row
    · have h1 := ih hrest (fun w2 hw2 => hval w2 (List.mem_cons_of_mem _ hw2))
      simp [cellAt, h1]
    · have h1 : cellAt rest col row = none :=
        cellAt_eq_none rest col row (fun w2 hw2 hc => hrest ⟨w2, hw2, hc⟩)
      obtain ⟨w2, hw2, hc⟩ := hex
      rcases List.mem_cons.mp hw2 with rfl | hw2
      · have hv := hval w2 (List.mem_cons_self _ _) hc.1 hc.2
        simp [cellAt, h1, hc.1, hc.2, hv]
      · exact absurd ⟨w2, hw2, hc⟩ hrest

theorem cellAt_mem (f : List CellWrite) (col row : Nat) (v : String)
    (h : cellAt f col row = some v) : ∃ w ∈ f, w.col = col ∧ w.row = row ∧ w.value = v := by
  induction f with
  | nil => simp [cellAt] at h
  | cons w rest ih =>
    cases hr : cellAt rest col row with
    | some v2 =>
      simp only [cellAt, hr, Option.some.injEq] at h
      subst h
      obtain ⟨w2, hw2, hc⟩ := ih hr
      exact ⟨w2, List.mem_cons_of_mem _ hw2, hc⟩
    | none =>
      by_cases hc : w.col = col ∧ w.row = row
      · simp only [cellAt, hr, hc, and_self, if_true, Option.some.injEq] at h
        exact ⟨w, List.mem_cons_self _ _, hc.1, hc.2, h⟩
      · simp [cellAt, hr, hc] at h

theorem cellAt_header (rangeKeys : GoMap → List String) (first : GoMap) (rest : List GoMap)
    (j : Nat) (h : String) (hj : (rangeKeys first)[j]? = some h) :
    cellAt (fillSheet rangeKeys (first :: rest)) (j + 1) 1 = some h := by
  apply cellAt_eq_some
  · exact ⟨⟨"Sheet1", j + 1, 1, h⟩, (mem_fillSheet _ _ _ _).mpr (Or.inl ⟨j, h, hj, rfl⟩), rfl, rfl⟩
  · intro w hw hc hr
    rcases (mem_fillSheet _ _ _ _).mp hw with ⟨j2, h2, hj2, rfl⟩ | ⟨i, r, j2, h2, _, _, rfl⟩
    · simp only [Nat.add_right_cancel_iff] at hc
      subst hc
      rw [hj] at hj2
      exact (Option.some.inj hj2).symm
    · simp at hr

theorem cellAt_data (rangeKeys : GoMap → List String) (first : GoMap) (rest : List GoMap)
    (i : Nat) (r : GoMap) (j : Nat) (h : String) (hi : (first :: rest)[i]? = some r)
    (hj : (rangeKeys first)[j]? = some h) :
    cellAt (fillSheet rangeKeys (first :: rest)) (j + 1) (i + 2) = some (index r h) := by
  apply cellAt_eq_some
  · exact ⟨⟨"Sheet1", j + 1, i + 2, index r h⟩,
      (mem_fillSheet _ _ _ _).mpr (Or.inr ⟨i, r, j, h, hi, hj, rfl⟩), rfl, rfl⟩
  · intro w hw hc hr
    rcases (mem_fillSheet _ _ _ _).mp hw with ⟨j2, h2, hj2, rfl⟩ | ⟨i2, r2, j2, h2, hi2, hj2, rfl⟩
    · simp at hr
    · simp only [Nat.add_right_cancel_iff] at hc hr
      subst hc; subst hr
      rw [hj] at hj2; rw [hi] at hi2
      cases hj2; cases hi2
      rfl

theorem held_eq_none (lib : Excelize) (f : List CellWrite) (col row : Nat)
    (h : ∀ w ∈ f, ¬ (lib.Accepts w ∧ w.col = col ∧ w.row = row)) : held lib f col row = none := by
  induction f with
  | nil => rfl
  | cons w rest ih =>
    have h1 := ih (fun w2 hw2 => h w2 (List.mem_cons_of_mem _ hw2))
    have h2 := h w (List.mem_cons_self _ _)
    simp only [held, h1, h2, if_false]

theorem held_eq_some (lib : Excelize) (f : List CellWrite) (col row : Nat) (v : String)
    (hex : ∃ w ∈ f, lib.Accepts w ∧ w.col = col ∧ w.row = row)
    (hval : ∀ w ∈ f, w.col = col → w.row = row → w.value = v) :
    held lib f col row = some (lib.stored v) := by
  induction f with
  | nil => obtain ⟨w, hw, _⟩ := hex; cases hw
  | cons w rest ih =>
    by_cases hrest : ∃ w2 ∈ rest, lib.Accepts w2 ∧ w2.col = col ∧ w2.row = row
    · have h1 := ih hrest (fun w2 hw2 => hval w2 (List.mem_cons_of_mem _ hw2))
      simp only [held, h1]
    · have h1 : held lib rest col row = none :=
        held_eq_none lib rest col row (fun w2 hw2 hc => hrest ⟨w2, hw2, hc⟩)
      obtain ⟨w2, hw2, hc⟩ := hex
      rcases List.mem_cons.mp hw2 with rfl | hw2
      · have hv := hval w2 (List.mem_cons_self _ _) hc.2.1 hc.2.2
        simp only [held, h1, hc, and_self, if_true, hv]
      · exact absurd ⟨w2, hw2, hc⟩ hrest

theorem held_mem (lib : Excelize) (f : List CellWrite) (col row : Nat) (v : String)
    (h : held lib f col row = some v) :
    ∃ w ∈ f, lib.Accepts w ∧ w.col = col ∧ w.row = row ∧ lib.stored w.value = v := by
  induction f with
  | nil => simp [held] at h
  | cons w rest ih =>
    cases hr : held lib rest col row with
    | some v2 =>
      simp only [held, hr, Option.some.injEq] at h
      subst h
      obtain ⟨w2, hw2, hc⟩ := ih hr
      exact ⟨w2, List.mem_cons_of_mem _ hw2, hc⟩
    | none =>
      by_cases hc : lib.Accepts w ∧ w.col = col ∧ w.row = row
      · simp only [held, hr, hc, and_self, if_true, Option.some.injEq] at h
        exact ⟨w, List.mem_cons_self _ _, hc.1, hc.2.1, hc.2.2, h⟩
      · simp only [held, hr, hc, if_false] at h
        cases h

theorem held_header (lib : Excelize) (rangeKeys : GoMap → List String) (first : GoMap)
    (rest : List GoMap) (j : Nat) (h : String) (hj : (rangeKeys first)[j]? = some h)
    (hsheet : lib.sheet = "Sheet1") (hcol : j + 1 ≤ lib.maxColumns) (hrow : 1 ≤ lib.totalRows) :
    held lib (fillSheet rangeKeys (first :: rest)) (j + 1) 1 = some (lib.stored h) := by
  apply held_eq_some
  · exact ⟨⟨"Sheet1", j + 1, 1, h⟩, (mem_fillSheet _ _ _ _).mpr (Or.inl ⟨j, h, hj, rfl⟩),
      ⟨hsheet.symm, Nat.succ_pos j, hcol, Nat.le_refl 1, hrow⟩, rfl, rfl⟩
  · intro w hw hc hr
    rcases (mem_fillSheet _ _ _ _).mp hw with ⟨j2, h2, hj2, rfl⟩ | ⟨i, r, j2, h2, _, _, rfl⟩
    · simp only [Nat.add_right_cancel_iff] at hc
      subst hc
      rw [hj] at hj2
      exact (Option.some.inj hj2).symm
    · simp at hr

theorem held_data (lib : Excelize) (rangeKeys : GoMap → List String) (first : GoMap)
    (rest : List GoMap) (i : Nat) (r : GoMap) (j : Nat) (h : String)
    (hi : (first :: rest)[i]? = some r) (hj : (rangeKeys first)[j]? = some h)
    (hsheet : lib.sheet = "Sheet1") (hcol : j + 1 ≤ lib.maxColumns)
    (hrow : i + 2 ≤ lib.totalRows) :
    held lib (fillSheet rangeKeys (first :: rest)) (j + 1) (i + 2)
      = some (lib.stored (index r h)) := by
  apply held_eq_some
  · exact ⟨⟨"Sheet1", j + 1, i + 2, index r h⟩,
      (mem_fillSheet _ _ _ _).mpr (Or.inr ⟨i, r, j, h, hi, hj, rfl⟩),
      ⟨hsheet.symm, Nat.succ_pos j, hcol, Nat.succ_pos (i + 1), hrow⟩, rfl, rfl⟩
  · intro w hw hc hr
    rcases (mem_fillSheet _ _ _ _).mp hw with ⟨j2, h2, hj2, rfl⟩ | ⟨i2, r2, j2, h2, hi2, hj2, rfl⟩
    · simp at hr
    · simp only [Nat.add_right_cancel_iff] at hc hr
      subst hc; subst hr
      rw [hj] at hj2; rw [hi] at hi2
      cases hj2; cases hi2
      rfl

theorem cellWrites_append (a b : List Call) : cellWrites (a ++ b) = cellWrites a ++ cellWrites b := by
  induction a with
  | nil => rfl
  | cons c a ih => cases c <;> simp [cellWrites, ih]

theorem cellWrites_map (ws : List CellWrite) : cellWrites (ws.map Call.setCellValue) = ws := by
  induction ws with
  | nil => rfl
  | cons w ws ih => simp [cellWrites, ih]

theorem jsonToExcel_cells (env : Env) (inputPath outputPath jsonData : String)
    (data : List GoMap) (hread : env.readFile inputPath = .ok jsonData)
    (hparse : env.unmarshal jsonData = .ok data) :
    cellWrites (jsonToExcel env inputPath outputPath).calls = fillSheet env.rangeKeys data
      ∧ (jsonToExcel env inputPath outputPath).err = (env.saveAs outputPath).map .saveFailed := by
  simp only [jsonToExcel, hread, hparse]
  cases hsave : env.saveAs outputPath with
  | none => simp [cellWrites_append, cellWrites_map, cellWrites]
  | some e => simp [cellWrites_append, cellWrites_map, cellWrites]

/-! ## Results on `excelToJSON` -/

theorem getElem?_succ_of_head (rows : List (List String)) (headers : List String)
    (hh : rows[0]? = some headers) : ∃ rest, rows = headers :: rest := by
  cases rows with
  | nil => simp at hh
  | cons a rest =>
    simp only [List.getElem?_cons_zero, Option.some.injEq] at hh
    exact ⟨rest, by rw [hh]⟩

/-- C4. Record order and count: when `excelToJSON` gets past the probe and reads a sheet of
`n >= 2` rows whose header names are distinct, the one sequence it hands to `json.MarshalIndent`
has `n - 1` records; for every `k`, its `k`-th record is the one built from row `k + 1`, and
that record maps `header[i]` to `row[k+1][i]` for every `i` below both lengths. -/
theorem record_order_and_count (env : Env) (inputPath outputPath : String) (f : Workbook)
    (sheetName : String) (others : List String) (rows : List (List String))
    (headers : List String)
    (hc : env.create (outputPath ++ ".permission_test") = none)
    (hr : env.remove (outputPath ++ ".permission_test") = none)
    (ho : env.openFile inputPath = .ok f)
    (hs : f.sheetList = sheetName :: others)
    (hg : f.getRows sheetName = .ok rows)
    (hn : 2 ≤ rows.length) (hh : rows[0]? = some headers) (hd : headers.Nodup) :
    ∃ data, serialized (excelToJSON env inputPath outputPath).calls = [data]
      ∧ data.length = rows.length - 1
      ∧ ∀ (k : Nat) (row : List String), rows[k + 1]? = some row →
          data[k]? = some (rowRecord headers row)
          ∧ ∀ (i : Nat) (h c : String), headers[i]? = some h → row[i]? = some c →
              (rowRecord headers row).lookup h = some c := by
  obtain ⟨rest, rfl⟩ := getElem?_succ_of_head rows headers hh
  refine ⟨buildRecords (headers :: rest),
    excelToJSON_serialized env inputPath outputPath f sheetName others _ hc hr ho hs hg hn,
    ?_, ?_⟩
  · simp [buildRecords_cons]
  · intro k row hrow
    refine ⟨?_, fun i h c hi hcell => lookup_rowRecord_of_nodup headers row hd i h c hi hcell⟩
    rw [buildRecords_cons, List.getElem?_map]
    simp only [List.getElem?_cons_succ] at hrow
    rw [hrow]; rfl

/-- C4 at the sample sheet, whose header is `name, age` and which has three data rows. -/
theorem record_order_and_count_witness :
    ∃ data, serialized (excelToJSON sampleEnv "in.xlsx" "out.json").calls = [data]
      ∧ data.length = sampleRows.length - 1
      ∧ ∀ (k : Nat) (row : List String), sampleRows[k + 1]? = some row →
          data[k]? = some (rowRecord ["name", "age"] row)
          ∧ ∀ (i : Nat) (h c : String), ["name", "age"][i]? = some h → row[i]? = some c →
              (rowRecord ["name", "age"] row).lookup h = some c :=
  record_order_and_count sampleEnv "in.xlsx" "out.json" sampleBook "Sheet1" [] sampleRows
    ["name", "age"] rfl rfl rfl rfl rfl (by decide) rfl (by decide)

/-- C3. Extra-column policy: in a sheet of at least two rows, the record built for data row
`k + 1` is the `k`-th record of the sequence; every key of it is a name of the header row; and
the record is the same for any row that agrees with it on the first `len(header)` cells, in
particular for the row cut at the header width. -/
theorem extra_columns_dropped (rows : List (List String)) (headers : List String)
    (hn : 2 ≤ rows.length) (hh : rows[0]? = some headers)
    (k : Nat) (row : List String) (hrow : rows[k + 1]? = some row)
    (key : String) (hkey : key ∈ rowRecord headers row)
    (row2 : List String) (hsame : row2.take headers.length = row.take headers.length) :
    (buildRecords rows)[k]? = some (rowRecord headers row)
      ∧ key ∈ headers
      ∧ rowRecord headers row = rowRecord headers (row.take headers.length)
      ∧ rowRecord headers row2 = rowRecord headers row := by
  obtain ⟨rest, rfl⟩ := getElem?_succ_of_head rows headers hh
  refine ⟨?_, ?_, (rowRecord_take headers row).symm, ?_⟩
  · rw [buildRecords_cons, List.getElem?_map]
    simp only [List.getElem?_cons_succ] at hrow
    rw [hrow]; rfl
  · obtain ⟨j, c, hj, _⟩ := (mem_rowRecord_iff headers row key).mp hkey
    exact List.getElem?_mem hj
  · rw [← rowRecord_take headers row2, hsame, rowRecord_take]

/-- C3 at the sample sheet: the long row (`Cy`, `40`, `x`) gives the record of (`Cy`, `40`). -/
theorem extra_columns_dropped_witness :
    (buildRecords sampleRows)[2]? = some (rowRecord ["name", "age"] ["Cy", "40", "x"])
      ∧ "age" ∈ ["name", "age"]
      ∧ rowRecord ["name", "age"] ["Cy", "40", "x"]
          = rowRecord ["name", "age"] (["Cy", "40", "x"].take ["name", "age"].length)
      ∧ rowRecord ["name", "age"] ["Cy", "40", "y", "z"]
          = rowRecord ["name", "age"] ["Cy", "40", "x"] :=
  extra_columns_dropped sampleRows ["name", "age"] (by decide) rfl 2 ["Cy", "40", "x"] rfl
    "age" (by decide) ["Cy", "40", "y", "z"] rfl

theorem getElem?_zip_pair (headers row : List String) (j : Nat) (k c : String)
    (hj : headers[j]? = some k) (hc : row[j]? = some c) :
    (headers.zip row)[j]? = some (k, c) :=
  List.getElem?_zip_eq_some.mpr ⟨hj, hc⟩

theorem keys_rowRecord (headers row : List String) :
    (rowRecord headers row).keys = ((headers.zip row).map Prod.fst).toFinset := by
  ext k
  rw [Finmap.mem_keys, mem_rowRecord_iff, List.mem_toFinset, List.mem_iff_getElem?]
  constructor
  · rintro ⟨j, c, hj, hc⟩
    refine ⟨j, ?_⟩
    rw [List.getElem?_map, getElem?_zip_pair headers row j k c hj hc]; rfl
  · rintro ⟨j, hj⟩
    rw [List.getElem?_map] at hj
    cases hz : (headers.zip row)[j]? with
    | none => rw [hz] at hj; cases hj
    | some p =>
      rw [hz] at hj
      simp only [Option.map_some', Option.some.injEq] at hj
      rw [List.getElem?_zip_eq_some] at hz
      exact ⟨j, p.2, by rw [hz.1, hj], hz.2⟩

/-- C10, as stated, fails on a row that stops before the second occurrence of the name:
the header `a, a` with the row `1` gives one entry, which is not fewer than `min 1 2`;
and with the empty row the record has no entry for `a` at all. -/
theorem duplicate_header_short_row_counterexample :
    ["a", "a"][0]? = some "a" ∧ ["a", "a"][1]? = some "a"
      ∧ ¬ (GoMap.len (rowRecord ["a", "a"] ["1"]) < min ["1"].length ["a", "a"].length)
      ∧ "a" ∉ rowRecord ["a", "a"] [] := by
  decide

/-- C10, amended. When the header holds the same name at two column indices that both lie
inside the data row, the record has one entry for the name, its value is the row cell at the
largest index inside the row where the header holds the name, and the record has fewer
entries than `min(len(row), len(header))`. -/
theorem duplicate_header_last_wins (headers row : List String) (name : String) (j1 j2 : Nat)
    (h12 : j1 < j2) (hj1 : headers[j1]? = some name) (hj2 : headers[j2]? = some name)
    (hin : j2 < row.length) :
    (∃ (j : Nat) (c : String), j2 ≤ j ∧ headers[j]? = some name ∧ row[j]? = some c
        ∧ (∀ j3, j < j3 → j3 < row.length → headers[j3]? ≠ some name)
        ∧ (rowRecord headers row).lookup name = some c)
      ∧ GoMap.len (rowRecord headers row) < min row.length headers.length := by
  constructor
  · let P : Nat → Prop := fun j => headers[j]? = some name ∧ j < row.length
    have hP2 : P j2 := ⟨hj2, hin⟩
    have hle : j2 ≤ row.length := Nat.le_of_lt hin
    have hspec : P (Nat.findGreatest P row.length) := Nat.findGreatest_spec hle hP2
    have hge : j2 ≤ Nat.findGreatest P row.length := Nat.le_findGreatest hle hP2
    obtain ⟨c, hc⟩ : ∃ c, row[Nat.findGreatest P row.length]? = some c :=
      ⟨row[Nat.findGreatest P row.length], List.getElem?_eq_getElem hspec.2⟩
    have hmax : ∀ j3, Nat.findGreatest P row.length < j3 → j3 < row.length
        → headers[j3]? ≠ some name := by
      intro j3 hgt hj3 hname
      exact Nat.findGreatest_is_greatest hgt (Nat.le_of_lt hj3) ⟨hname, hj3⟩
    exact ⟨Nat.findGreatest P row.length, c, hge, hspec.1, hc, hmax,
      lookup_rowRecord_of_last headers row _ name c hspec.1 hc hmax⟩
  · rw [GoMap.len, keys_rowRecord]
    have hlen : ((headers.zip row).map Prod.fst).length = min row.length headers.length := by
      simp [Nat.min_comm]
    rw [← hlen]
    apply lt_of_le_of_ne (List.toFinset_card_le _)
    intro heq
    have hnd : ((headers.zip row).map Prod.fst).Nodup := by
      have := (Multiset.toFinset_card_eq_card_iff_nodup
        (m := (((headers.zip row).map Prod.fst : List String) : Multiset String))).mp
        (by simpa using heq)
      simpa using this
    obtain ⟨c1, hc1⟩ : ∃ c, row[j1]? = some c :=
      ⟨row[j1], List.getElem?_eq_getElem (by omega)⟩
    obtain ⟨c2, hc2⟩ : ∃ c, row[j2]? = some c := ⟨row[j2], List.getElem?_eq_getElem hin⟩
    have e1 : ((headers.zip row).map Prod.fst)[j1]? = some name := by
      rw [List.getElem?_map, getElem?_zip_pair headers row j1 name c1 hj1 hc1]; rfl
    have e2 : ((headers.zip row).map Prod.fst)[j2]? = some name := by
      rw [List.getElem?_map, getElem?_zip_pair headers row j2 name c2 hj2 hc2]; rfl
    have hb : j1 < ((headers.zip row).map Prod.fst).length := (List.getElem?_eq_some.mp e1).1
    have := List.getElem?_inj hb hnd (e1.trans e2.symm)
    omega

/-- C10 amended, at the header `a, b, a` and the row `1, 2, 3`: `a` maps to `3`. -/
theorem duplicate_header_last_wins_witness :
    (∃ (j : Nat) (c : String), 2 ≤ j ∧ ["a", "b", "a"][j]? = some "a" ∧ ["1", "2", "3"][j]? = some c
        ∧ (∀ j3, j < j3 → j3 < ["1", "2", "3"].length → ["a", "b", "a"][j3]? ≠ some "a")
        ∧ (rowRecord ["a", "b", "a"] ["1", "2", "3"]).lookup "a" = some c)
      ∧ GoMap.len (rowRecord ["a", "b", "a"] ["1", "2", "3"])
          < min ["1", "2", "3"].length ["a", "b", "a"].length :=
  duplicate_header_last_wins ["a", "b", "a"] ["1", "2", "3"] "a" 0 2 (by decide) rfl rfl
    (by decide)

theorem index_of_not_mem (r : GoMap) (field : String) (h : field ∉ r) : index r field = "" := by
  rw [index, Finmap.lookup_eq_none.mpr h]; rfl

theorem index_of_lookup (r : GoMap) (field c : String) (h : r.lookup field = some c) :
    index r field = c := by
  rw [index, h]; rfl

/-- C2. Short-row policy: for a header of distinct names and a data row shorter than it, the
keys of the record built for the row are exactly `header[0..len(row)-1]` (`len(row)` entries),
and a header name at an index `k >= len(row)` is absent from the record (no entry, not an
entry holding `""`).  When `jsonToExcel` writes a record that lacks a header field, the value
it writes with `SetCellValue` for that field column is `""`, and the error `jsonToExcel`
returns is the outcome of `SaveAs` alone. -/
theorem short_row_policy (headers row : List String) (hd : headers.Nodup)
    (hshort : row.length < headers.length)
    (k : Nat) (name : String) (hk : row.length ≤ k) (hname : headers[k]? = some name)
    (env : Env) (inputPath outputPath jsonData : String) (first : GoMap) (rest : List GoMap)
    (hread : env.readFile inputPath = .ok jsonData)
    (hparse : env.unmarshal jsonData = .ok (first :: rest))
    (i : Nat) (r : GoMap) (j : Nat) (field : String)
    (hi : (first :: rest)[i]? = some r) (hj : (env.rangeKeys first)[j]? = some field)
    (hlack : field ∉ r) :
    (∀ key, key ∈ rowRecord headers row ↔ key ∈ headers.take row.length)
      ∧ GoMap.len (rowRecord headers row) = row.length
      ∧ name ∉ rowRecord headers row
      ∧ (rowRecord headers row).lookup name = none
      ∧ cellAt (cellWrites (jsonToExcel env inputPath outputPath).calls) (j + 1) (i + 2) = some ""
      ∧ (jsonToExcel env inputPath outputPath).err
          = (env.saveAs outputPath).map ConvError.saveFailed := by
  have habs : name ∉ rowRecord headers row := by
    intro hmem
    obtain ⟨j2, c, hj2, hc⟩ := (mem_rowRecord_iff headers row name).mp hmem
    have hlt : j2 < row.length := (List.getElem?_eq_some.mp hc).1
    have hb : j2 < headers.length := (List.getElem?_eq_some.mp hj2).1
    have := List.getElem?_inj hb hd (hj2.trans hname.symm)
    omega
  obtain ⟨hcells, herr⟩ := jsonToExcel_cells env inputPath outputPath jsonData _ hread hparse
  have hkeys : ∀ key, key ∈ rowRecord headers row ↔ key ∈ headers.take row.length := by
    intro key
    rw [mem_rowRecord_iff, List.mem_iff_getElem?]
    constructor
    · rintro ⟨j2, c, hj2, hc⟩
      have hlt : j2 < row.length := (List.getElem?_eq_some.mp hc).1
      exact ⟨j2, by rw [List.getElem?_take_of_lt hlt, hj2]⟩
    · rintro ⟨j2, hj2⟩
      rw [List.getElem?_take] at hj2
      by_cases hlt : j2 < row.length
      · rw [if_pos hlt] at hj2
        exact ⟨j2, row[j2], hj2, List.getElem?_eq_getElem hlt⟩
      · rw [if_neg hlt] at hj2; cases hj2
  refine ⟨hkeys, ?_, habs, Finmap.lookup_eq_none.mpr habs, ?_, herr⟩
  · have hset : (rowRecord headers row).keys = (headers.take row.length).toFinset := by
      ext key
      rw [Finmap.mem_keys, List.mem_toFinset]
      exact hkeys key
    rw [GoMap.len, hset, List.toFinset_card_of_nodup (hd.sublist (List.take_sublist _ _)),
      List.length_take]
    omega
  · rw [hcells, cellAt_data env.rangeKeys first rest i r j field hi hj,
      index_of_not_mem r field hlack]

/-- C2 at the sample sheet: the short row (`Bob`) gives a record without `age`, and writing the
records back puts `""` in the `age` column of that row. -/
theorem short_row_policy_witness :
    (∀ key, key ∈ rowRecord ["name", "age"] ["Bob"] ↔ key ∈ ["name", "age"].take ["Bob"].length)
      ∧ GoMap.len (rowRecord ["name", "age"] ["Bob"]) = ["Bob"].length
      ∧ "age" ∉ rowRecord ["name", "age"] ["Bob"]
      ∧ (rowRecord ["name", "age"] ["Bob"]).lookup "age" = none
      ∧ cellAt (cellWrites (jsonToExcel sampleEnv "out.json" "back.xlsx").calls) (0 + 1) (1 + 2)
          = some ""
      ∧ (jsonToExcel sampleEnv "out.json" "back.xlsx").err
          = (sampleEnv.saveAs "back.xlsx").map ConvError.saveFailed :=
  short_row_policy ["name", "age"] ["Bob"] (by decide) (by decide) 1 "age" (by decide) rfl
    sampleEnv "out.json" "back.xlsx" "[]" (rowRecord ["name", "age"] ["Ann", "31"])
    [rowRecord ["name", "age"] ["Bob"], rowRecord ["name", "age"] ["Cy", "40", "x"]]
    rfl rfl 1 (rowRecord ["name", "age"] ["Bob"]) 0 "age" rfl rfl (by decide)

/-! ## Error paths -/

theorem filesWritten_append (a b : List Call) :
    filesWritten (a ++ b) = filesWritten a ++ filesWritten b := by
  induction a with
  | nil => rfl
  | cons c a ih => cases c <;> simp [filesWritten, ih]

theorem booksOpened_append (a b : List Call) :
    booksOpened (a ++ b) = booksOpened a ++ booksOpened b := by
  induction a with
  | nil => rfl
  | cons c a ih => cases c <;> simp [booksOpened, ih]

theorem checkWritePermission_quiet (env : Env) (path : String) :
    filesWritten (checkWritePermission env path).calls = []
      ∧ booksOpened (checkWritePermission env path).calls = [] := by
  cases hc : env.create (path ++ ".permission_test") with
  | some e => simp [checkWritePermission, hc, filesWritten, booksOpened]
  | none =>
    cases hr : env.remove (path ++ ".permission_test") with
    | some e => simp [checkWritePermission, hc, hr, filesWritten, booksOpened]
    | none => simp [checkWritePermission, hc, hr, filesWritten, booksOpened]

theorem checkWritePermission_err (env : Env) (path : String) :
    (checkWritePermission env path).err = none
      ↔ env.create (path ++ ".permission_test") = none
        ∧ env.remove (path ++ ".permission_test") = none := by
  cases hc : env.create (path ++ ".permission_test") with
  | some e => simp [checkWritePermission, hc]
  | none =>
    cases hr : env.remove (path ++ ".permission_test") with
    | some e => simp [checkWritePermission, hc, hr]
    | none => simp [checkWritePermission, hc, hr]

theorem excelToJSON_of_probe_fail (env : Env) (inputPath outputPath : String) (e : ConvError)
    (hp : (checkWritePermission env outputPath).err = some e) :
    excelToJSON env inputPath outputPath = ⟨(checkWritePermission env outputPath).calls, some e⟩ := by
  simp only [excelToJSON, hp]

theorem excelToJSON_of_open (env : Env) (inputPath outputPath : String) (f : Workbook)
    (hp : (checkWritePermission env outputPath).err = none)
    (ho : env.openFile inputPath = .ok f) :
    excelToJSON env inputPath outputPath
      = ⟨(checkWritePermission env outputPath).calls ++ [.openFile inputPath]
          ++ (convertBook env f outputPath).calls ++ [.closeBook],
        (convertBook env f outputPath).err⟩ := by
  simp only [excelToJSON, hp, ho]

theorem convertBook_noSheet (env : Env) (f : Workbook) (outputPath : String)
    (hnil : f.sheetList = []) :
    convertBook env f outputPath = ⟨[], some .noSheet⟩ := by
  simp only [convertBook, hnil]

theorem convertBook_noData (env : Env) (f : Workbook) (outputPath sheetName : String)
    (others : List String) (rows : List (List String))
    (hs : f.sheetList = sheetName :: others) (hg : f.getRows sheetName = .ok rows)
    (hlt : rows.length < 2) :
    convertBook env f outputPath = ⟨[.getRows sheetName], some (.noData sheetName)⟩ := by
  simp only [convertBook, hs, hg, hlt, if_true]

/-- C5. Empty-sheet rejection: when the document at `inputPath` opens and either has no sheet
or has a first sheet of fewer than two rows, `excelToJSON` returns an error and makes no
`os.WriteFile` call at all.  Once the permission probe has passed, the error is the no-sheet
error for a document without sheets and the insufficient-rows error naming the first sheet
otherwise; the two errors differ, as do their texts. -/
theorem empty_sheet_rejected (env : Env) (inputPath outputPath : String) (f : Workbook)
    (ho : env.openFile inputPath = .ok f)
    (hbad : f.sheetList = [] ∨ ∃ sheetName others rows, f.sheetList = sheetName :: others
      ∧ f.getRows sheetName = .ok rows ∧ rows.length < 2) :
    filesWritten (excelToJSON env inputPath outputPath).calls = []
      ∧ (∃ e, (excelToJSON env inputPath outputPath).err = some e
          ∧ ((checkWritePermission env outputPath).err = none →
              (f.sheetList = [] → e = ConvError.noSheet)
              ∧ ∀ sheetName others, f.sheetList = sheetName :: others
                  → e = ConvError.noData sheetName))
      ∧ ∀ sheetName, ConvError.noData sheetName ≠ ConvError.noSheet
          ∧ (ConvError.noData sheetName).message ≠ ConvError.noSheet.message := by
  have hq := (checkWritePermission_quiet env outputPath).1
  refine ⟨?_, ?_, ?_⟩
  · cases hp : (checkWritePermission env outputPath).err with
    | some e => rw [excelToJSON_of_probe_fail env inputPath outputPath e hp]; exact hq
    | none =>
      rw [excelToJSON_of_open env inputPath outputPath f hp ho]
      rcases hbad with hnil | ⟨sheetName, others, rows, hs, hg, hlt⟩
      · rw [convertBook_noSheet env f outputPath hnil]
        simp [filesWritten_append, filesWritten, hq]
      · rw [convertBook_noData env f outputPath sheetName others rows hs hg hlt]
        simp [filesWritten_append, filesWritten, hq]
  · cases hp : (checkWritePermission env outputPath).err with
    | some e =>
      rw [excelToJSON_of_probe_fail env inputPath outputPath e hp]
      exact ⟨e, rfl, fun h => by cases h⟩
    | none =>
      rw [excelToJSON_of_open env inputPath outputPath f hp ho]
      rcases hbad with hnil | ⟨sheetName, others, rows, hs, hg, hlt⟩
      · rw [convertBook_noSheet env f outputPath hnil]
        refine ⟨ConvError.noSheet, rfl, fun _ => ⟨fun _ => rfl, ?_⟩⟩
        intro s o hso
        rw [hnil] at hso; cases hso
      · rw [convertBook_noData env f outputPath sheetName others rows hs hg hlt]
        refine ⟨ConvError.noData sheetName, rfl, fun _ => ⟨fun hnil => ?_, ?_⟩⟩
        · rw [hnil] at hs; cases hs
        · intro s o hso
          rw [hs] at hso
          cases hso; rfl
  · intro sheetName
    constructor
    · intro h; cases h
    · intro h
      have := congrArg String.data h
      simp [ConvError.message, String.data_append] at this

/-- C5 at a sheet that holds a header row only. -/
theorem empty_sheet_rejected_witness :
    filesWritten (excelToJSON (sheetEnv [["name"]] []) "in.xlsx" "out.json").calls = []
      ∧ (∃ e, (excelToJSON (sheetEnv [["name"]] []) "in.xlsx" "out.json").err = some e
          ∧ ((checkWritePermission (sheetEnv [["name"]] []) "out.json").err = none →
              ((⟨["Sheet1"], fun _ => .ok [["name"]]⟩ : Workbook).sheetList = []
                → e = ConvError.noSheet)
              ∧ ∀ sheetName others,
                  (⟨["Sheet1"], fun _ => .ok [["name"]]⟩ : Workbook).sheetList
                      = sheetName :: others
                  → e = ConvError.noData sheetName))
      ∧ ∀ sheetName, ConvError.noData sheetName ≠ ConvError.noSheet
          ∧ (ConvError.noData sheetName).message ≠ ConvError.noSheet.message :=
  empty_sheet_rejected (sheetEnv [["name"]] []) "in.xlsx" "out.json"
    ⟨["Sheet1"], fun _ => .ok [["name"]]⟩ rfl
    (Or.inr ⟨"Sheet1", [], [["name"]], rfl, rfl, by decide⟩)

/-- C7. Permission gate: when `checkWritePermission(outputPath)` fails, `excelToJSON` returns
that error and makes exactly the calls of the probe: no workbook is opened and no file is
written.  The probe fails either because creating the marker `outputPath.permission_test`
fails or because deleting it fails, and for every path it returns `nil` exactly when both the
create and the delete succeed. -/
theorem permission_gate (env : Env) (inputPath outputPath path : String) (e : ConvError)
    (hfail : (checkWritePermission env outputPath).err = some e) :
    (excelToJSON env inputPath outputPath).err = some e
      ∧ (excelToJSON env inputPath outputPath).calls = (checkWritePermission env outputPath).calls
      ∧ booksOpened (excelToJSON env inputPath outputPath).calls = []
      ∧ filesWritten (excelToJSON env inputPath outputPath).calls = []
      ∧ ((∃ c, env.create (outputPath ++ ".permission_test") = some c
            ∧ e = ConvError.createFailed c)
          ∨ (env.create (outputPath ++ ".permission_test") = none
            ∧ ∃ c, env.remove (outputPath ++ ".permission_test") = some c
              ∧ e = ConvError.removeFailed c))
      ∧ ((checkWritePermission env path).err = none
          ↔ env.create (path ++ ".permission_test") = none
            ∧ env.remove (path ++ ".permission_test") = none) := by
  have hrun := excelToJSON_of_probe_fail env inputPath outputPath e hfail
  have hcalls : (excelToJSON env inputPath outputPath).calls
      = (checkWritePermission env outputPath).calls := by
    rw [hrun]
  refine ⟨by rw [hrun], hcalls, ?_, ?_, ?_, checkWritePermission_err env path⟩
  · rw [hcalls]; exact (checkWritePermission_quiet env outputPath).2
  · rw [hcalls]; exact (checkWritePermission_quiet env outputPath).1
  · cases hc : env.create (outputPath ++ ".permission_test") with
    | some c =>
      simp only [checkWritePermission, hc, Option.some.injEq] at hfail
      exact Or.inl ⟨c, rfl, hfail.symm⟩
    | none =>
      cases hr : env.remove (outputPath ++ ".permission_test") with
      | some c =>
        simp only [checkWritePermission, hc, hr, Option.some.injEq] at hfail
        exact Or.inr ⟨rfl, c, rfl, hfail.symm⟩
      | none => simp [checkWritePermission, hc, hr] at hfail

/-- C7 in an environment that refuses to create files. -/
theorem permission_gate_witness :
    (excelToJSON deniedEnv "in.xlsx" "out.json").err
        = some (ConvError.createFailed "permission denied")
      ∧ (excelToJSON deniedEnv "in.xlsx" "out.json").calls
          = (checkWritePermission deniedEnv "out.json").calls
      ∧ booksOpened (excelToJSON deniedEnv "in.xlsx" "out.json").calls = []
      ∧ filesWritten (excelToJSON deniedEnv "in.xlsx" "out.json").calls = []
      ∧ ((∃ c, deniedEnv.create ("out.json" ++ ".permission_test") = some c
            ∧ ConvError.createFailed "permission denied" = ConvError.createFailed c)
          ∨ (deniedEnv.create ("out.json" ++ ".permission_test") = none
            ∧ ∃ c, deniedEnv.remove ("out.json" ++ ".permission_test") = some c
              ∧ ConvError.createFailed "permission denied" = ConvError.removeFailed c))
      ∧ ((checkWritePermission deniedEnv "other.json").err = none
          ↔ deniedEnv.create ("other.json" ++ ".permission_test") = none
            ∧ deniedEnv.remove ("other.json" ++ ".permission_test") = none) :=
  permission_gate deniedEnv "in.xlsx" "out.json" "other.json"
    (ConvError.createFailed "permission denied") rfl

/-- The probe creates and removes the marker beside `outputPath` and never touches
`outputPath` itself: it can pass while the write of `outputPath` fails, and `excelToJSON`
then returns the write error after having opened and read the workbook. -/
theorem probe_passes_write_fails :
    (checkWritePermission unwritableEnv "outdir").err = none
      ∧ (excelToJSON unwritableEnv "in.xlsx" "outdir").err
          = some (ConvError.writeFailed "is a directory")
      ∧ booksOpened (excelToJSON unwritableEnv "in.xlsx" "outdir").calls = ["in.xlsx"] := by
  decide

/-! ## Results on `jsonToExcel` -/

/-- C8. Empty record set: when the input decodes to an empty record sequence, `jsonToExcel`
makes no `SetCellValue` call (its calls are the read, the decode, the new document, the save
and the close), so no cell of the document is set, and it returns `nil` exactly when the
save succeeds. -/
theorem empty_record_set (env : Env) (inputPath outputPath jsonData : String)
    (hread : env.readFile inputPath = .ok jsonData)
    (hparse : env.unmarshal jsonData = .ok [])
    (col row : Nat) :
    (jsonToExcel env inputPath outputPath).calls
        = [.osReadFile inputPath, .unmarshal jsonData, .newFile, .saveAs outputPath, .closeBook]
      ∧ cellWrites (jsonToExcel env inputPath outputPath).calls = []
      ∧ cellAt (cellWrites (jsonToExcel env inputPath outputPath).calls) col row = none
      ∧ ((jsonToExcel env inputPath outputPath).err = none ↔ env.saveAs outputPath = none) := by
  have hcalls : (jsonToExcel env inputPath outputPath).calls
      = [.osReadFile inputPath, .unmarshal jsonData, .newFile, .saveAs outputPath,
          .closeBook] := by
    simp only [jsonToExcel, hread, hparse]
    cases env.saveAs outputPath <;> simp [fillSheet]
  refine ⟨hcalls, ?_, ?_, ?_⟩
  · rw [hcalls]; rfl
  · rw [hcalls]; rfl
  · simp only [jsonToExcel, hread, hparse]
    cases env.saveAs outputPath <;> simp

/-- C8 in an environment whose JSON file decodes to no record. -/
theorem empty_record_set_witness :
    (jsonToExcel (sheetEnv [] []) "in.json" "out.xlsx").calls
        = [.osReadFile "in.json", .unmarshal "[]", .newFile, .saveAs "out.xlsx", .closeBook]
      ∧ cellWrites (jsonToExcel (sheetEnv [] []) "in.json" "out.xlsx").calls = []
      ∧ cellAt (cellWrites (jsonToExcel (sheetEnv [] []) "in.json" "out.xlsx").calls) 1 1 = none
      ∧ ((jsonToExcel (sheetEnv [] []) "in.json" "out.xlsx").err = none
          ↔ (sheetEnv [] []).saveAs "out.xlsx" = none) :=
  empty_record_set (sheetEnv [] []) "in.json" "out.xlsx" "[]" rfl rfl 1 1

theorem mem_rangeOrder (m : GoMap) (hs : List String) (h : RangeOrder m hs) (k : String) :
    k ∈ hs ↔ k ∈ m := by
  rw [← List.mem_toFinset, h.2, Finmap.mem_keys]

theorem length_rangeOrder (m : GoMap) (hs : List String) (h : RangeOrder m hs) :
    hs.length = m.len := by
  rw [GoMap.len, ← h.2, List.toFinset_card_of_nodup h.1]

theorem writeDataRow_congr (f : List CellWrite) (rowIdx : Nat) (row row2 : GoMap) (colIdx : Nat)
    (hs : List String) (h : ∀ k ∈ hs, index row k = index row2 k) :
    writeDataRow f rowIdx row colIdx hs = writeDataRow f rowIdx row2 colIdx hs := by
  induction hs generalizing f colIdx with
  | nil => rfl
  | cons header rest ih =>
    rw [writeDataRow, writeDataRow, h header (List.mem_cons_self _ _)]
    exact ih _ _ (fun k hk => h k (List.mem_cons_of_mem _ hk))

theorem writeDataRows_erase (f : List CellWrite) (hs : List String) (rowIdx : Nat)
    (data : List GoMap) (key : String) (hkey : key ∉ hs) :
    writeDataRows f hs rowIdx (data.map (Finmap.erase key)) = writeDataRows f hs rowIdx data := by
  induction data generalizing f rowIdx with
  | nil => rfl
  | cons row rest ih =>
    rw [List.map_cons, writeDataRows, writeDataRows, ih]
    congr 1
    apply writeDataRow_congr
    intro k hk
    have hne : k ≠ key := fun e => hkey (e ▸ hk)
    rw [index, index, Finmap.lookup_erase_ne hne]

/-- C9, as stated, fails past the last row of a sheet.  A record sequence of 1048576 records
`a: 1` is decoded, `range` visits `a`, and `jsonToExcel` returns `nil`; the claim puts
`record[a]` of record 1048575 in the cell of column 1, row 1048577, but the library refuses
that row, the source discards the error, and the cell holds nothing. -/
theorem header_and_cells_past_last_row :
    (List.replicate 1048576 (rowRecord ["a"] ["1"]))[1048575]? = some (rowRecord ["a"] ["1"])
      ∧ RangeOrder (rowRecord ["a"] ["1"]) ["a"]
      ∧ ["a"][0]? = some "a"
      ∧ (jsonToExcel (recordsEnv (List.replicate 1048576 (rowRecord ["a"] ["1"])) ["a"])
          "in.json" "out.xlsx").err = none
      ∧ held sampleLib (cellWrites (jsonToExcel
          (recordsEnv (List.replicate 1048576 (rowRecord ["a"] ["1"])) ["a"])
          "in.json" "out.xlsx").calls) (0 + 1) (1048575 + 2) = none := by
  refine ⟨by rw [List.getElem?_replicate]; simp, by decide, rfl, ?_, ?_⟩
  · exact (jsonToExcel_cells
      (recordsEnv (List.replicate 1048576 (rowRecord ["a"] ["1"])) ["a"])
      "in.json" "out.xlsx" "[]" _ rfl rfl).2
  · apply held_eq_none
    intro w _ hw
    have h1 : w.row ≤ 1048576 := hw.1.2.2.2.2
    have h2 : w.row = 1048575 + 2 := hw.2.2
    omega

/-- C9, amended. For a non-empty record sequence, with `Header` the keys of record 0 in the
order `range` visits them (each key once), the `SetCellValue` calls of `jsonToExcel` are those
of `fillSheet`, all on `Sheet1`, in columns `1..len(Header)` and rows `1..len(data) + 1`: the
call for column `j + 1`, row 1 passes `Header[j]`, and the call for column `j + 1`, row
`i + 2` passes `record_i[Header[j]]`, which is `""` when the record lacks the key.  Where the
column and the row are within the limits of the library, the cell holds the text the library
stores for the value passed.  A key absent from record 0 is passed by no call of row 1, and
erasing it from every later record changes no call. -/
theorem header_and_cells (lib : Excelize) (env : Env) (inputPath outputPath jsonData : String)
    (first : GoMap) (rest : List GoMap)
    (hread : env.readFile inputPath = .ok jsonData)
    (hparse : env.unmarshal jsonData = .ok (first :: rest))
    (horder : RangeOrder first (env.rangeKeys first))
    (hsheet : lib.sheet = "Sheet1") :
    cellWrites (jsonToExcel env inputPath outputPath).calls
        = fillSheet env.rangeKeys (first :: rest)
      ∧ (env.rangeKeys first).Nodup
      ∧ (∀ k, k ∈ env.rangeKeys first ↔ k ∈ first)
      ∧ (env.rangeKeys first).length = first.len
      ∧ (∀ (j : Nat) (field : String), (env.rangeKeys first)[j]? = some field →
          cellAt (fillSheet env.rangeKeys (first :: rest)) (j + 1) 1 = some field
          ∧ (j + 1 ≤ lib.maxColumns → 1 ≤ lib.totalRows →
              held lib (fillSheet env.rangeKeys (first :: rest)) (j + 1) 1
                = some (lib.stored field)))
      ∧ (∀ (i : Nat) (r : GoMap) (j : Nat) (field : String), (first :: rest)[i]? = some r →
          (env.rangeKeys first)[j]? = some field →
          cellAt (fillSheet env.rangeKeys (first :: rest)) (j + 1) (i + 2)
              = some ((r.lookup field).getD "")
          ∧ (field ∉ r →
              cellAt (fillSheet env.rangeKeys (first :: rest)) (j + 1) (i + 2) = some "")
          ∧ (j + 1 ≤ lib.maxColumns → i + 2 ≤ lib.totalRows →
              held lib (fillSheet env.rangeKeys (first :: rest)) (j + 1) (i + 2)
                = some (lib.stored ((r.lookup field).getD ""))))
      ∧ (∀ w ∈ fillSheet env.rangeKeys (first :: rest),
          w.sheet = "Sheet1" ∧ 1 ≤ w.col ∧ w.col ≤ first.len ∧ 1 ≤ w.row
            ∧ w.row ≤ (first :: rest).length + 1)
      ∧ (∀ (key : String), key ∉ first →
          (∀ w ∈ fillSheet env.rangeKeys (first :: rest), w.row = 1 → w.value ≠ key)
          ∧ fillSheet env.rangeKeys (first :: rest.map (Finmap.erase key))
              = fillSheet env.rangeKeys (first :: rest)) := by
  have hlen := length_rangeOrder first _ horder
  refine ⟨(jsonToExcel_cells env inputPath outputPath jsonData _ hread hparse).1, horder.1,
    mem_rangeOrder first _ horder, hlen, ?_, ?_, ?_, ?_⟩
  · intro j field hj
    exact ⟨cellAt_header env.rangeKeys first rest j field hj,
      fun hcol hrow => held_header lib env.rangeKeys first rest j field hj hsheet hcol hrow⟩
  · intro i r j field hi hj
    have hdata := cellAt_data env.rangeKeys first rest i r j field hi hj
    refine ⟨hdata, ?_, fun hcol hrow =>
      held_data lib env.rangeKeys first rest i r j field hi hj hsheet hcol hrow⟩
    intro hlack
    rw [hdata, index_of_not_mem r field hlack]
  · intro w hw
    rcases (mem_fillSheet _ _ _ _).mp hw with ⟨j2, h2, hj2, rfl⟩ | ⟨i2, r2, j2, h2, hi2, hj2, rfl⟩
    · have hb : j2 < (env.rangeKeys first).length := (List.getElem?_eq_some.mp hj2).1
      simp only [List.length_cons, true_and]
      omega
    · have hb : j2 < (env.rangeKeys first).length := (List.getElem?_eq_some.mp hj2).1
      have hb2 : i2 < (first :: rest).length := (List.getElem?_eq_some.mp hi2).1
      simp only [List.length_cons, true_and] at hb2 ⊢
      omega
  · intro key hkey
    have hnot : key ∉ env.rangeKeys first :=
      fun h => hkey ((mem_rangeOrder first _ horder key).mp h)
    constructor
    · intro w hw hrow hval
      rcases (mem_fillSheet _ _ _ _).mp hw with ⟨j2, h2, hj2, rfl⟩ | ⟨i2, r2, j2, h2, _, _, rfl⟩
      · simp only at hval
        subst hval
        exact hnot (List.getElem?_mem hj2)
      · simp at hrow
    · simp only [fillSheet, writeDataRows]
      exact writeDataRows_erase _ _ _ rest key hnot

/-- C9 amended, on two records of which the second has the extra key `b`: the sheet has the
one column `a`, and `b` reaches no call. -/
theorem header_and_cells_witness :
    cellWrites (jsonToExcel (recordsEnv [rowRecord ["a"] ["1"], rowRecord ["a", "b"] ["2", "3"]]
        ["a"]) "in.json" "out.xlsx").calls
        = fillSheet (fun _ => ["a"]) [rowRecord ["a"] ["1"], rowRecord ["a", "b"] ["2", "3"]]
      ∧ ["a"].Nodup
      ∧ (∀ k, k ∈ ["a"] ↔ k ∈ rowRecord ["a"] ["1"])
      ∧ ["a"].length = (rowRecord ["a"] ["1"]).len
      ∧ (∀ (j : Nat) (field : String), ["a"][j]? = some field →
          cellAt (fillSheet (fun _ => ["a"])
            [rowRecord ["a"] ["1"], rowRecord ["a", "b"] ["2", "3"]]) (j + 1) 1 = some field
          ∧ (j + 1 ≤ sampleLib.maxColumns → 1 ≤ sampleLib.totalRows →
              held sampleLib (fillSheet (fun _ => ["a"])
                [rowRecord ["a"] ["1"], rowRecord ["a", "b"] ["2", "3"]]) (j + 1) 1
                = some (sampleLib.stored field)))
      ∧ (∀ (i : Nat) (r : GoMap) (j : Nat) (field : String),
          [rowRecord ["a"] ["1"], rowRecord ["a", "b"] ["2", "3"]][i]? = some r →
          ["a"][j]? = some field →
          cellAt (fillSheet (fun _ => ["a"])
            [rowRecord ["a"] ["1"], rowRecord ["a", "b"] ["2", "3"]]) (j + 1) (i + 2)
              = some ((r.lookup field).getD "")
          ∧ (field ∉ r →
              cellAt (fillSheet (fun _ => ["a"])
                [rowRecord ["a"] ["1"], rowRecord ["a", "b"] ["2", "3"]]) (j + 1) (i + 2)
                = some "")
          ∧ (j + 1 ≤ sampleLib.maxColumns → i + 2 ≤ sampleLib.totalRows →
              held sampleLib (fillSheet (fun _ => ["a"])
                [rowRecord ["a"] ["1"], rowRecord ["a", "b"] ["2", "3"]]) (j + 1) (i + 2)
                = some (sampleLib.stored ((r.lookup field).getD ""))))
      ∧ (∀ w ∈ fillSheet (fun _ => ["a"])
            [rowRecord ["a"] ["1"], rowRecord ["a", "b"] ["2", "3"]],
          w.sheet = "Sheet1" ∧ 1 ≤ w.col ∧ w.col ≤ (rowRecord ["a"] ["1"]).len ∧ 1 ≤ w.row
            ∧ w.row ≤ [rowRecord ["a"] ["1"], rowRecord ["a", "b"] ["2", "3"]].length + 1)
      ∧ (∀ (key : String), key ∉ rowRecord ["a"] ["1"] →
          (∀ w ∈ fillSheet (fun _ => ["a"])
            [rowRecord ["a"] ["1"], rowRecord ["a", "b"] ["2", "3"]], w.row = 1 → w.value ≠ key)
          ∧ fillSheet (fun _ => ["a"])
              (rowRecord ["a"] ["1"] :: [rowRecord ["a", "b"] ["2", "3"]].map (Finmap.erase key))
              = fillSheet (fun _ => ["a"])
                  [rowRecord ["a"] ["1"], rowRecord ["a", "b"] ["2", "3"]]) :=
  header_and_cells sampleLib
    (recordsEnv [rowRecord ["a"] ["1"], rowRecord ["a", "b"] ["2", "3"]] ["a"])
    "in.json" "out.xlsx" "[]" (rowRecord ["a"] ["1"]) [rowRecord ["a", "b"] ["2", "3"]]
    rfl rfl (by decide) rfl

/-! ## The extension gate -/

/-- C6, as stated, fails: `jsonToExcel` has no extension check.  On the path `data.txt`,
whose extension is not `.json`, it reads the file and returns `nil`. -/
theorem jsonToExcel_reads_any_extension :
    Ext "data.txt" ≠ ".json"
      ∧ (jsonToExcel sampleEnv "data.txt" "out.xlsx").err = none
      ∧ filesRead (jsonToExcel sampleEnv "data.txt" "out.xlsx").calls = ["data.txt"] := by
  decide

/-- C6, amended. The extension gate is in the file-open callback of the export button: for an
input path whose extension is not `.json` the callback shows the invalid-file error and does
nothing else, so `jsonToExcel` is not called and no file is read.  `jsonToExcel` itself checks
no extension: its first call is the read of the input file. -/
theorem export_extension_gate (env : Env) (inputPath outputPath : String)
    (writer : Option String) (hext : Ext inputPath ≠ ".json") :
    exportOpenCallback env (some inputPath) writer = [.showError "请选择有效的 JSON 文件"]
      ∧ filesRead (exportOpenCallback env (some inputPath) writer) = []
      ∧ (jsonToExcel env inputPath outputPath).calls.head? = some (.osReadFile inputPath) := by
  have hcb : exportOpenCallback env (some inputPath) writer
      = [.showError "请选择有效的 JSON 文件"] := by
    simp only [exportOpenCallback, hext, ne_eq, not_false_eq_true, if_true]
  refine ⟨hcb, by rw [hcb]; rfl, ?_⟩
  cases hread : env.readFile inputPath with
  | error e => simp only [jsonToExcel, hread, List.head?_cons]
  | ok jsonData =>
    cases hparse : env.unmarshal jsonData with
    | error e => simp only [jsonToExcel, hread, hparse, List.head?_cons]
    | ok data =>
      cases hsave : env.saveAs outputPath with
      | none => simp [jsonToExcel, hread, hparse, hsave]
      | some e => simp [jsonToExcel, hread, hparse, hsave]

/-- C6 amended, on the path `data.txt`. -/
theorem export_extension_gate_witness :
    exportOpenCallback sampleEnv (some "data.txt") (some "out.xlsx")
        = [.showError "请选择有效的 JSON 文件"]
      ∧ filesRead (exportOpenCallback sampleEnv (some "data.txt") (some "out.xlsx")) = []
      ∧ (jsonToExcel sampleEnv "data.txt" "out.xlsx").calls.head?
          = some (.osReadFile "data.txt") :=
  export_extension_gate sampleEnv "data.txt" "out.xlsx" (some "out.xlsx") (by decide)

/-! ## Round trip -/

theorem convertBook_ok (env : Env) (f : Workbook) (outputPath sheetName : String)
    (others : List String) (rows : List (List String)) (jsonData : String)
    (hs : f.sheetList = sheetName :: others) (hg : f.getRows sheetName = .ok rows)
    (hn : 2 ≤ rows.length)
    (hm : env.marshalIndent (buildRecords rows) = .ok jsonData)
    (hw : env.writeFile outputPath jsonData = none) :
    convertBook env f outputPath
      = ⟨[.getRows sheetName, .marshalIndent (buildRecords rows),
          .osWriteFile outputPath jsonData], none⟩ := by
  have hlt : ¬ rows.length < 2 := by omega
  simp only [convertBook, hs, hg, hlt, if_false, hm, hw]

theorem keys_rowRecord_full (headers row : List String) (hlen : row.length = headers.length) :
    (rowRecord headers row).keys = headers.toFinset := by
  rw [keys_rowRecord, List.map_fst_zip headers row (by omega)]

/-- C1, as stated, fails.  With the header `a, a` and the data row `1, 2` (a non-empty header,
one data row as wide as it) the record is `a: 2`; `range` can only visit `a`, so after the
round trip cell B1 (originally `a`) holds nothing and cell A2 (originally `1`) holds `2`.
With the distinct header `b, a` and the row `1, 2`, `range` may visit `a` before `b`, and then
cell A1 (originally `b`) holds `a`.  With the header `name, age` and the row `_x0041_, 31`,
cell A2 is set to `_x0041_`, which the library reads back as `A`. -/
theorem round_trip_counterexample :
    ((excelToJSON (sheetEnv [["a", "a"], ["1", "2"]] ["a"]) "in.xlsx" "out.json").err = none
      ∧ serialized (excelToJSON (sheetEnv [["a", "a"], ["1", "2"]] ["a"]) "in.xlsx"
          "out.json").calls = [[rowRecord ["a", "a"] ["1", "2"]]]
      ∧ (∀ hs, RangeOrder (rowRecord ["a", "a"] ["1", "2"]) hs → hs = ["a"])
      ∧ held sampleLib (cellWrites (jsonToExcel (sheetEnv [["a", "a"], ["1", "2"]] ["a"])
          "out.json" "back.xlsx").calls) 2 1 = none
      ∧ held sampleLib (cellWrites (jsonToExcel (sheetEnv [["a", "a"], ["1", "2"]] ["a"])
          "out.json" "back.xlsx").calls) 1 2 = some "2")
    ∧ ((excelToJSON (sheetEnv [["b", "a"], ["1", "2"]] ["a", "b"]) "in.xlsx" "out.json").err
          = none
      ∧ RangeOrder (rowRecord ["b", "a"] ["1", "2"]) ["a", "b"]
      ∧ held sampleLib (cellWrites (jsonToExcel (sheetEnv [["b", "a"], ["1", "2"]] ["a", "b"])
          "out.json" "back.xlsx").calls) 1 1 = some "a")
    ∧ ((excelToJSON (sheetEnv [["name", "age"], ["_x0041_", "31"]] ["name", "age"]) "in.xlsx"
          "out.json").err = none
      ∧ RangeOrder (rowRecord ["name", "age"] ["_x0041_", "31"]) ["name", "age"]
      ∧ cellAt (cellWrites (jsonToExcel
          (sheetEnv [["name", "age"], ["_x0041_", "31"]] ["name", "age"])
          "out.json" "back.xlsx").calls) 1 2 = some "_x0041_"
      ∧ held sampleLib (cellWrites (jsonToExcel
          (sheetEnv [["name", "age"], ["_x0041_", "31"]] ["name", "age"])
          "out.json" "back.xlsx").calls) 1 2 = some "A") := by
  refine ⟨⟨by decide, by decide, ?_, by decide, by decide⟩, ⟨by decide, by decide, by decide⟩,
    by decide, by decide, by decide, by decide⟩
  intro hs hr
  have hk : (rowRecord ["a", "a"] ["1", "2"]).keys = {"a"} := by decide
  have hperm : hs.Perm ["a"] :=
    List.perm_of_nodup_nodup_toFinset_eq hr.1 (by decide) (by rw [hr.2, hk]; rfl)
  exact List.perm_singleton.mp hperm

/-- C1, amended. For a sheet whose header is non-empty and holds pairwise distinct names, with
at least one data row and every row as wide as the header, that fits the limits of the library
and whose texts the library stores unchanged: `excelToJSON` succeeds and writes one file; when
`jsonToExcel` reads that file back and the decoder returns the records that were encoded, the
names that row 1 of the new sheet holds are a permutation of the header (the order in which
`range` visits the keys of the first record), each column holding its name in row 1, and in
the column that holds the name `header[j]` the cell of row `i + 2` holds the text of the
original cell at column `j` of data row `i`; no cell outside `len(header)` columns and
`len(rows)` rows holds anything. -/
theorem round_trip (lib : Excelize) (env : Env) (inputPath jsonPath outputPath : String)
    (f : Workbook) (sheetName : String) (others : List String) (rows : List (List String))
    (headers row1 : List String) (jsonData : String)
    (hc : env.create (jsonPath ++ ".permission_test") = none)
    (hr : env.remove (jsonPath ++ ".permission_test") = none)
    (ho : env.openFile inputPath = .ok f)
    (hs : f.sheetList = sheetName :: others)
    (hg : f.getRows sheetName = .ok rows)
    (hh : rows[0]? = some headers) (hrow1 : rows[1]? = some row1)
    (_hne : headers ≠ []) (hd : headers.Nodup)
    (hwide : ∀ row ∈ rows, row.length = headers.length)
    (hm : env.marshalIndent (buildRecords rows) = .ok jsonData)
    (hw : env.writeFile jsonPath jsonData = none)
    (hread : env.readFile jsonPath = .ok jsonData)
    (hparse : env.unmarshal jsonData = .ok (buildRecords rows))
    (horder : RangeOrder (rowRecord headers row1) (env.rangeKeys (rowRecord headers row1)))
    (hsheet : lib.sheet = "Sheet1")
    (hcols : headers.length ≤ lib.maxColumns) (hrows : rows.length ≤ lib.totalRows)
    (hstored : ∀ row ∈ rows, ∀ c ∈ row, lib.stored c = c) :
    (excelToJSON env inputPath jsonPath).err = none
      ∧ filesWritten (excelToJSON env inputPath jsonPath).calls = [(jsonPath, jsonData)]
      ∧ (env.rangeKeys (rowRecord headers row1)).Perm headers
      ∧ (∀ (q : Nat) (name : String),
          (env.rangeKeys (rowRecord headers row1))[q]? = some name →
          held lib (cellWrites (jsonToExcel env jsonPath outputPath).calls) (q + 1) 1
            = some name)
      ∧ (∀ (i j q : Nat) (row : List String) (name c : String), rows[i + 1]? = some row →
          headers[j]? = some name → row[j]? = some c →
          (env.rangeKeys (rowRecord headers row1))[q]? = some name →
          held lib (cellWrites (jsonToExcel env jsonPath outputPath).calls) (q + 1) (i + 2)
            = some c)
      ∧ ∀ col r v,
          held lib (cellWrites (jsonToExcel env jsonPath outputPath).calls) col r = some v
          → 1 ≤ col ∧ col ≤ headers.length ∧ 1 ≤ r ∧ r ≤ rows.length := by
  obtain ⟨rest, rfl⟩ := getElem?_succ_of_head rows headers hh
  have hrest : ∃ tail, rest = row1 :: tail := by
    cases rest with
    | nil => simp at hrow1
    | cons a tail =>
      simp only [List.getElem?_cons_succ, List.getElem?_cons_zero, Option.some.injEq] at hrow1
      exact ⟨tail, by rw [hrow1]⟩
  obtain ⟨tail, rfl⟩ := hrest
  have hn : 2 ≤ (headers :: row1 :: tail).length := by simp
  have hprobe : (checkWritePermission env jsonPath).err = none :=
    (checkWritePermission_err env jsonPath).mpr ⟨hc, hr⟩
  have hrun := excelToJSON_of_open env inputPath jsonPath f hprobe ho
  rw [convertBook_ok env f jsonPath sheetName others _ jsonData hs hg hn hm hw] at hrun
  have hdata : buildRecords (headers :: row1 :: tail)
      = rowRecord headers row1 :: tail.map (rowRecord headers) := by
    rw [buildRecords_cons]; rfl
  rw [hdata] at hparse
  have hcells := (jsonToExcel_cells env jsonPath outputPath jsonData _ hread hparse).1
  have hlen1 : row1.length = headers.length := hwide row1 (by simp)
  have hperm : (env.rangeKeys (rowRecord headers row1)).Perm headers :=
    List.perm_of_nodup_nodup_toFinset_eq horder.1 hd
      (by rw [horder.2, keys_rowRecord_full headers row1 hlen1])
  have hl := hperm.length_eq
  have hrowsLen : (headers :: row1 :: tail).length = tail.length + 2 := by simp
  rw [hrowsLen] at hrows
  refine ⟨by rw [hrun], ?_, hperm, ?_, ?_, ?_⟩
  · rw [hrun]
    simp [filesWritten_append, filesWritten, (checkWritePermission_quiet env jsonPath).1]
  · intro q name hq
    have hb := (List.getElem?_eq_some.mp hq).1
    have hmem : name ∈ headers := hperm.mem_iff.mp (List.getElem?_mem hq)
    rw [hcells, held_header lib env.rangeKeys _ _ q name hq hsheet (by omega) (by omega),
      hstored headers (by simp) name hmem]
  · intro i j q row name c hrow hname hcell hq
    have hb := (List.getElem?_eq_some.mp hq).1
    have hrowmem : row ∈ headers :: row1 :: tail := List.getElem?_mem hrow
    have hbi : i + 1 < (headers :: row1 :: tail).length := (List.getElem?_eq_some.mp hrow).1
    rw [hrowsLen] at hbi
    have hrec : (rowRecord headers row1 :: tail.map (rowRecord headers))[i]?
        = some (rowRecord headers row) := by
      have h1 : (rowRecord headers row1 :: tail.map (rowRecord headers))
          = (row1 :: tail).map (rowRecord headers) := rfl
      rw [h1, List.getElem?_map]
      simp only [List.getElem?_cons_succ] at hrow
      rw [hrow]; rfl
    rw [hcells, held_data lib env.rangeKeys _ _ i (rowRecord headers row) q name hrec hq hsheet
        (by omega) (by omega),
      index_of_lookup _ name c (lookup_rowRecord_of_nodup headers row hd j name c hname hcell),
      hstored row hrowmem c (List.getElem?_mem hcell)]
  · intro col r v hv
    rw [hcells] at hv
    obtain ⟨w, hw2, _, hcol, hrw, _⟩ := held_mem _ _ _ _ _ hv
    rcases (mem_fillSheet _ _ _ _).mp hw2 with ⟨j2, h2, hj2, rfl⟩ | ⟨i2, r2, j2, h2, hi2, hj2, rfl⟩
    · have hb := (List.getElem?_eq_some.mp hj2).1
      simp only at hcol hrw
      simp only [List.length_cons]
      omega
    · have hb := (List.getElem?_eq_some.mp hj2).1
      have hb2 := (List.getElem?_eq_some.mp hi2).1
      simp only at hcol hrw
      simp only [List.length_cons, List.length_map] at hb2 ⊢
      omega

/-- C1 amended, on the sheet `name, age / Ann, 31 / Bob, 25` with `range` visiting `age`
first: the `age` column is column 1, and its cell for `Bob` holds `25`. -/
theorem round_trip_witness :
    (excelToJSON (sheetEnv [["name", "age"], ["Ann", "31"], ["Bob", "25"]] ["age", "name"])
        "in.xlsx" "out.json").err = none
      ∧ filesWritten (excelToJSON
          (sheetEnv [["name", "age"], ["Ann", "31"], ["Bob", "25"]] ["age", "name"])
          "in.xlsx" "out.json").calls = [("out.json", "[]")]
      ∧ ((sheetEnv [["name", "age"], ["Ann", "31"], ["Bob", "25"]] ["age", "name"]).rangeKeys
          (rowRecord ["name", "age"] ["Ann", "31"])).Perm ["name", "age"]
      ∧ (∀ (q : Nat) (name : String),
          ((sheetEnv [["name", "age"], ["Ann", "31"], ["Bob", "25"]] ["age", "name"]).rangeKeys
            (rowRecord ["name", "age"] ["Ann", "31"]))[q]? = some name →
          held sampleLib (cellWrites (jsonToExcel
            (sheetEnv [["name", "age"], ["Ann", "31"], ["Bob", "25"]] ["age", "name"])
            "out.json" "back.xlsx").calls) (q + 1) 1 = some name)
      ∧ (∀ (i j q : Nat) (row : List String) (name c : String),
          [["name", "age"], ["Ann", "31"], ["Bob", "25"]][i + 1]? = some row →
          ["name", "age"][j]? = some name → row[j]? = some c →
          ((sheetEnv [["name", "age"], ["Ann", "31"], ["Bob", "25"]] ["age", "name"]).rangeKeys
            (rowRecord ["name", "age"] ["Ann", "31"]))[q]? = some name →
          held sampleLib (cellWrites (jsonToExcel
            (sheetEnv [["name", "age"], ["Ann", "31"], ["Bob", "25"]] ["age", "name"])
            "out.json" "back.xlsx").calls) (q + 1) (i + 2) = some c)
      ∧ ∀ col r v, held sampleLib (cellWrites (jsonToExcel
          (sheetEnv [["name", "age"], ["Ann", "31"], ["Bob", "25"]] ["age", "name"])
          "out.json" "back.xlsx").calls) col r = some v
          → 1 ≤ col ∧ col ≤ ["name", "age"].length ∧ 1 ≤ r
            ∧ r ≤ [["name", "age"], ["Ann", "31"], ["Bob", "25"]].length :=
  round_trip sampleLib
    (sheetEnv [["name", "age"], ["Ann", "31"], ["Bob", "25"]] ["age", "name"])
    "in.xlsx" "out.json" "back.xlsx" ⟨["Sheet1"], fun _ => .ok
      [["name", "age"], ["Ann", "31"], ["Bob", "25"]]⟩ "Sheet1" []
    [["name", "age"], ["Ann", "31"], ["Bob", "25"]] ["name", "age"] ["Ann", "31"] "[]"
    rfl rfl rfl rfl rfl rfl rfl (by decide) (by decide) (by decide) rfl rfl rfl rfl
    (by decide) rfl (by decide) (by decide) (by decide)

end Excel2Json
